import Mathlib

/-!
Verification of `array_extras.py` (iw_pyutils): a shallow embedding of the two
2D array transforms `shift_2d` and `add_border_2d` together with the numpy
primitives they use (slicing with Python semantics, `np.tile`, `np.vstack`,
`np.hstack`, zero arrays, and sliced assignment with a shape check standing in
for numpy's broadcast check).  A grid is a pair of dimensions together with a
total indexing function; entries outside the dimensions are irrelevant and all
statements quantify only over in-bounds indices.
-/

/-- A 2D numpy array of a numeric dtype: dimensions plus a row-major indexing
function.  The element type is modelled as `Int` (the dtype is opaque in the
source; only copying and zero-fill occur). -/
structure Grid where
  rows : Nat
  cols : Nat
  data : Nat → Nat → Int

/-- Python index normalization for a slice endpoint on an axis of length `n`:
negative indices count from the end, and the result is clamped to `[0, n]`. -/
def pyIdx (n : Nat) (i : Int) : Nat :=
  if i < 0 then (max ((n : Int) + i) 0).toNat else min i.toNat n

/-- Row slice `g[i:j, :]` with Python slice semantics. -/
def sliceRows (g : Grid) (i j : Int) : Grid :=
  ⟨pyIdx g.rows j - pyIdx g.rows i, g.cols, fun r c => g.data (pyIdx g.rows i + r) c⟩

/-- Column slice `g[:, i:j]` with Python slice semantics. -/
def sliceCols (g : Grid) (i j : Int) : Grid :=
  ⟨g.rows, pyIdx g.cols j - pyIdx g.cols i, fun r c => g.data r (pyIdx g.cols i + c)⟩

/-- `np.tile(g, (q, 1))`: stack `q` vertical copies of `g`. -/
def tileV (g : Grid) (q : Nat) : Grid :=
  ⟨q * g.rows, g.cols, fun r c => g.data (r % g.rows) c⟩

/-- `np.tile(g, (1, q))`: stack `q` horizontal copies of `g`. -/
def tileH (g : Grid) (q : Nat) : Grid :=
  ⟨g.rows, q * g.cols, fun r c => g.data r (c % g.cols)⟩

/-- `np.vstack((a, b))`.  Every call site in this file stacks grids with equal
column counts, so the column count is taken from `a`. -/
def vstack (a b : Grid) : Grid :=
  ⟨a.rows + b.rows, a.cols, fun r c => if r < a.rows then a.data r c else b.data (r - a.rows) c⟩

/-- `np.hstack((a, b))`.  Every call site in this file stacks grids with equal
row counts, so the row count is taken from `a`. -/
def hstack (a b : Grid) : Grid :=
  ⟨a.rows, a.cols + b.cols, fun r c => if c < a.cols then a.data r c else b.data r (c - a.cols)⟩

/-- `np.zeros((r, c))`. -/
def zeros (r c : Nat) : Grid := ⟨r, c, fun _ _ => 0⟩

/-- `np.zeros_like(g)`. -/
def zeros_like (g : Grid) : Grid := zeros g.rows g.cols

/-- Sliced assignment `g[r0:r1, c0:c1] = src` with Python slice semantics.
Numpy raises a broadcast error when the shape of `src` differs from the shape
of the target region; that check is modelled exactly (the degenerate
`(1, 1)`-broadcast corner is never reached by the statements below). -/
def setRegion (g : Grid) (r0 r1 c0 c1 : Int) (src : Grid) : Except String Grid :=
  let rs := pyIdx g.rows r0
  let re := pyIdx g.rows r1
  let cs := pyIdx g.cols c0
  let ce := pyIdx g.cols c1
  if src.rows = re - rs ∧ src.cols = ce - cs then
    .ok ⟨g.rows, g.cols, fun r c =>
      if rs ≤ r ∧ r < re ∧ cs ≤ c ∧ c < ce then src.data (r - rs) (c - cs) else g.data r c⟩
  else
    .error "could not broadcast"

/-- The tile count computed on lines 46-50 and 69-73 of the source (and, with
`s = border_width`, on lines 127-130): `quot = abs(s) // stride`, incremented
when `s % stride` (Python modulo, i.e. `Int.emod` for positive `stride`) is
nonzero.  Only evaluated with `stride > 0`. -/
def pyQuot (s stride : Int) : Int :=
  let q := (s.natAbs : Int) / stride
  let rem := s % stride
  if rem ≠ 0 then q + 1 else q

/-- Lines 45-66 of the source: the row pass of `shift_2d`.  `row_arr` starts as
`np.zeros_like(arr)`; a positive shift builds the padding from the leading
`stride` rows tiled and cropped with `[-shift_row:]`, a negative shift from the
trailing `stride` rows tiled and cropped with `[:-shift_row]`; with
`stride <= 0` the surviving rows are copied by sliced assignment and the
vacated rows stay zero. -/
def rowPass (arr : Grid) (shift_row stride : Int) : Except String Grid :=
  let row_arr := zeros_like arr
  let quot : Int := if stride > 0 then pyQuot shift_row stride else 0
  if shift_row > 0 then
    if stride > 0 then
      let t := tileV (sliceRows arr 0 stride) quot.toNat
      let stride_arr := sliceRows t (-shift_row) (t.rows : Int)
      .ok (vstack stride_arr (sliceRows arr 0 (-shift_row)))
    else
      setRegion row_arr shift_row (row_arr.rows : Int) 0 (row_arr.cols : Int)
        (sliceRows arr 0 (-shift_row))
  else if shift_row < 0 then
    if stride > 0 then
      let t := tileV (sliceRows arr (-stride) (arr.rows : Int)) quot.toNat
      let stride_arr := sliceRows t 0 (-shift_row)
      .ok (vstack (sliceRows arr (-shift_row) (arr.rows : Int)) stride_arr)
    else
      setRegion row_arr 0 shift_row 0 (row_arr.cols : Int)
        (sliceRows arr (-shift_row) (arr.rows : Int))
  else
    setRegion row_arr 0 (row_arr.rows : Int) 0 (row_arr.cols : Int) arr

/-- Lines 68-89 of the source: the column pass of `shift_2d`, applied to the
row-shifted intermediate `row_arr`.  Note that `new_arr = np.zeros_like(arr)`
is shaped after the ORIGINAL input, exactly as in the source. -/
def colPass (arr row_arr : Grid) (shift_col stride : Int) : Except String Grid :=
  let new_arr := zeros_like arr
  let quot : Int := if stride > 0 then pyQuot shift_col stride else 0
  if shift_col > 0 then
    if stride > 0 then
      let t := tileH (sliceCols row_arr 0 stride) quot.toNat
      let stride_arr := sliceCols t (-shift_col) (t.cols : Int)
      .ok (hstack stride_arr (sliceCols row_arr 0 (-shift_col)))
    else
      setRegion new_arr 0 (new_arr.rows : Int) shift_col (new_arr.cols : Int)
        (sliceCols row_arr 0 (-shift_col))
  else if shift_col < 0 then
    if stride > 0 then
      let t := tileH (sliceCols row_arr (-stride) (row_arr.cols : Int)) quot.toNat
      let stride_arr := sliceCols t 0 (-shift_col)
      .ok (hstack (sliceCols row_arr (-shift_col) (row_arr.cols : Int)) stride_arr)
    else
      setRegion new_arr 0 (new_arr.rows : Int) 0 shift_col
        (sliceCols row_arr (-shift_col) (row_arr.cols : Int))
  else
    setRegion new_arr 0 (new_arr.rows : Int) 0 (new_arr.cols : Int) row_arr

/-- `shift_2d(arr, (shift_row, shift_col), stride)` from the source: the row
pass followed by the column pass on its result. -/
def shift_2d (arr : Grid) (shifts : Int × Int) (stride : Int) : Except String Grid := do
  let (shift_row, shift_col) := shifts
  let row_arr ← rowPass arr shift_row stride
  colPass arr row_arr shift_col stride

/-- `add_border_2d(arr, border_width, stride)` from the source, lines 119-149:
allocate a zero grid of size `(rows + 2b) × (cols + 2b)`, copy `arr` into
`new_arr[b:-b, b:-b]`, and for `stride > 0` fill the four borders in the order
top, bottom, left, right, each time tiling the `stride` rows/columns adjacent
to the border `quot` times and cropping with `[:border_width]`. -/
def add_border_2d (arr : Grid) (border_width : Nat) (stride : Int) : Except String Grid := do
  let new_x := arr.rows + border_width * 2
  let new_y := arr.cols + border_width * 2
  let new_arr := zeros new_x new_y
  let new_arr ← setRegion new_arr (border_width : Int) (-(border_width : Int))
    (border_width : Int) (-(border_width : Int)) arr
  if stride > 0 then
    let quot := pyQuot (border_width : Int) stride
    -- Fill the top
    let arr_t := sliceRows new_arr (border_width : Int) ((border_width : Int) + stride)
    let new_arr ← setRegion new_arr 0 (border_width : Int) 0 (new_arr.cols : Int)
      (sliceRows (tileV arr_t quot.toNat) 0 (border_width : Int))
    -- Fill the bottom
    let arr_b := sliceRows new_arr (-((border_width : Int) + stride)) (-(border_width : Int))
    let new_arr ← setRegion new_arr (-(border_width : Int)) (new_arr.rows : Int) 0
      (new_arr.cols : Int) (sliceRows (tileV arr_b quot.toNat) 0 (border_width : Int))
    -- Fill the left
    let arr_l := sliceCols new_arr (border_width : Int) ((border_width : Int) + stride)
    let new_arr ← setRegion new_arr 0 (new_arr.rows : Int) 0 (border_width : Int)
      (sliceCols (tileH arr_l quot.toNat) 0 (border_width : Int))
    -- Fill the right
    let arr_b := sliceCols new_arr (-((border_width : Int) + stride)) (-(border_width : Int))
    setRegion new_arr 0 (new_arr.rows : Int) (-(border_width : Int)) (new_arr.cols : Int)
      (sliceCols (tileH arr_b quot.toNat) 0 (border_width : Int))
  else
    return new_arr

/-- Extensional equality of grids: same dimensions and same entries at every
in-bounds index. -/
def Grid.Equiv (a b : Grid) : Prop :=
  a.rows = b.rows ∧ a.cols = b.cols ∧ ∀ i < a.rows, ∀ j < a.cols, a.data i j = b.data i j

instance (a b : Grid) : Decidable (a.Equiv b) := by
  unfold Grid.Equiv; infer_instance

/-- The computation succeeded and its result satisfies `P`. -/
def isOkAnd (e : Except String Grid) (P : Grid → Prop) : Prop :=
  match e with
  | .ok g => P g
  | .error _ => False

instance (e : Except String Grid) (P : Grid → Prop) [∀ g, Decidable (P g)] :
    Decidable (isOkAnd e P) := by
  cases e with
  | ok g => exact (inferInstance : Decidable (P g))
  | error s => exact isFalse (fun h => h)

/-- If the computation succeeded, its result satisfies `P`. -/
def okImp (e : Except String Grid) (P : Grid → Prop) : Prop :=
  match e with
  | .ok g => P g
  | .error _ => True

instance (e : Except String Grid) (P : Grid → Prop) [∀ g, Decidable (P g)] :
    Decidable (okImp e P) := by
  cases e with
  | ok g => exact (inferInstance : Decidable (P g))
  | error s => exact isTrue trivial

/-- The computation raised an error. -/
def raisesErr (e : Except String Grid) : Prop :=
  match e with
  | .ok _ => False
  | .error _ => True

instance (e : Except String Grid) : Decidable (raisesErr e) := by
  cases e with
  | ok g => exact isFalse (fun h => h)
  | error s => exact isTrue trivial

/-- The rows of `g` repeat with period `p`: every two in-bounds rows at
distance `p` agree. -/
def RowPeriodic (g : Grid) (p : Nat) : Prop :=
  ∀ i < g.rows - p, ∀ j < g.cols, g.data i j = g.data (i + p) j

instance (g : Grid) (p : Nat) : Decidable (RowPeriodic g p) := by
  unfold RowPeriodic; infer_instance

/-- Every in-bounds entry of `out` is either zero or a copy of some in-bounds
entry of `src`: the transforms only move and replicate values. -/
def Conserves (src out : Grid) : Prop :=
  ∀ i < out.rows, ∀ j < out.cols,
    out.data i j = 0 ∨ ∃ a < src.rows, ∃ b < src.cols, out.data i j = src.data a b

instance (src out : Grid) : Decidable (Conserves src out) := by
  unfold Conserves; infer_instance

/-- The 6×6 test grid used by the demonstration block of the source: values
1..36 in row-major order. -/
def grid6 : Grid := ⟨6, 6, fun i j => (6 * i + j + 1 : Nat)⟩

/-- A 2×2 grid with four distinct values. -/
def grid22 : Grid := ⟨2, 2, fun i j => (2 * i + j + 1 : Nat)⟩

/-- A 2×1 grid with rows 1, 2: a 2-row-periodic column pattern. -/
def grid21 : Grid := ⟨2, 1, fun i _ => (i + 1 : Nat)⟩

/-- A 4×1 grid with rows 1, 2, 3, 4. -/
def grid41 : Grid := ⟨4, 1, fun i _ => (i + 1 : Nat)⟩

/-- A 4×2 grid whose rows repeat with period 2 (a Bayer-like alternating
pattern): rows are `[0, 1]`, `[10, 11]`, `[0, 1]`, `[10, 11]`. -/
def grid42 : Grid := ⟨4, 2, fun i j => ((i % 2) * 10 + j : Nat)⟩

/-- The index map realized by one axis pass of `shift_2d` with `stride > 0` on
an axis of length `n`: output position `r` holds the input row/column at
position `shiftIdx n s stride r`.  For `0 < s` the first `s` positions are the
trailing `s`-crop of the tiled leading block (of length `L = min stride n`,
tiled `pyQuot s stride` times); for `s < 0` the last `|s|` positions are the
leading crop of the tiled trailing block. -/
def shiftIdx (n : Nat) (s stride : Int) (r : Nat) : Nat :=
  if 0 < s then
    if r < s.toNat then
      ((pyQuot s stride).toNat * min stride.toNat n - s.toNat + r) % min stride.toNat n
    else r - s.toNat
  else if s < 0 then
    if r < n - s.natAbs then r + s.natAbs
    else (n - min stride.toNat n) + ((r - (n - s.natAbs)) % min stride.toNat n)
  else r

/-- The index map realized by `add_border_2d` with `0 < stride ≤ n` on an axis
of length `n` with border `b`: output position `r` holds the input row/column
at position `borderIdx n b stride r`.  Both borders use the LEADING
`[:border_width]` crop of the tiled edge block, hence the `% st` counting from
the block start on both sides. -/
def borderIdx (n b st : Nat) (r : Nat) : Nat :=
  if r < b then r % st
  else if r < b + n then r - b
  else n - st + ((r - (b + n)) % st)

/-- Modelled from the spec: the trailing `n`-length crop `tile[-n:]` of a tiled
block, which §4.3 of the spec prescribes for the bottom/right borders of
`expand_border`.  The source instead crops with `[:border_width]` everywhere;
this definition exists to compare the two. -/
def cropTrailing (g : Grid) (n : Nat) : Grid :=
  sliceRows g (-(n : Int)) (g.rows : Int)

/-! ### Basic facts about the primitives -/

@[simp] theorem zeros_rows (r c : Nat) : (zeros r c).rows = r := rfl
@[simp] theorem zeros_cols (r c : Nat) : (zeros r c).cols = c := rfl
@[simp] theorem zeros_data (r c i j : Nat) : (zeros r c).data i j = 0 := rfl
@[simp] theorem zeros_like_rows (g : Grid) : (zeros_like g).rows = g.rows := rfl
@[simp] theorem zeros_like_cols (g : Grid) : (zeros_like g).cols = g.cols := rfl
@[simp] theorem zeros_like_data (g : Grid) (i j : Nat) : (zeros_like g).data i j = 0 := rfl

@[simp] theorem sliceRows_rows (g : Grid) (i j : Int) :
    (sliceRows g i j).rows = pyIdx g.rows j - pyIdx g.rows i := rfl
@[simp] theorem sliceRows_cols (g : Grid) (i j : Int) : (sliceRows g i j).cols = g.cols := rfl
@[simp] theorem sliceRows_data (g : Grid) (i j : Int) (r c : Nat) :
    (sliceRows g i j).data r c = g.data (pyIdx g.rows i + r) c := rfl

@[simp] theorem sliceCols_rows (g : Grid) (i j : Int) : (sliceCols g i j).rows = g.rows := rfl
@[simp] theorem sliceCols_cols (g : Grid) (i j : Int) :
    (sliceCols g i j).cols = pyIdx g.cols j - pyIdx g.cols i := rfl
@[simp] theorem sliceCols_data (g : Grid) (i j : Int) (r c : Nat) :
    (sliceCols g i j).data r c = g.data r (pyIdx g.cols i + c) := rfl

@[simp] theorem tileV_rows (g : Grid) (q : Nat) : (tileV g q).rows = q * g.rows := rfl
@[simp] theorem tileV_cols (g : Grid) (q : Nat) : (tileV g q).cols = g.cols := rfl
@[simp] theorem tileV_data (g : Grid) (q r c : Nat) :
    (tileV g q).data r c = g.data (r % g.rows) c := rfl

@[simp] theorem tileH_rows (g : Grid) (q : Nat) : (tileH g q).rows = g.rows := rfl
@[simp] theorem tileH_cols (g : Grid) (q : Nat) : (tileH g q).cols = q * g.cols := rfl
@[simp] theorem tileH_data (g : Grid) (q r c : Nat) :
    (tileH g q).data r c = g.data r (c % g.cols) := rfl

@[simp] theorem vstack_rows (a b : Grid) : (vstack a b).rows = a.rows + b.rows := rfl
@[simp] theorem vstack_cols (a b : Grid) : (vstack a b).cols = a.cols := rfl
theorem vstack_data (a b : Grid) (r c : Nat) :
    (vstack a b).data r c = if r < a.rows then a.data r c else b.data (r - a.rows) c := rfl

@[simp] theorem hstack_rows (a b : Grid) : (hstack a b).rows = a.rows := rfl
@[simp] theorem hstack_cols (a b : Grid) : (hstack a b).cols = a.cols + b.cols := rfl
theorem hstack_data (a b : Grid) (r c : Nat) :
    (hstack a b).data r c = if c < a.cols then a.data r c else b.data r (c - a.cols) := rfl

theorem pyIdx_zero (n : Nat) : pyIdx n 0 = 0 := by
  unfold pyIdx; rw [if_neg (by omega)]; omega

theorem pyIdx_natCast (n k : Nat) : pyIdx n (k : Int) = min k n := by
  unfold pyIdx; rw [if_neg (by omega)]; omega

theorem pyIdx_self (n : Nat) : pyIdx n (n : Int) = n := by
  rw [pyIdx_natCast]; omega

theorem pyIdx_neg (n : Nat) (i : Int) (h : i < 0) : pyIdx n i = n - i.natAbs := by
  unfold pyIdx; rw [if_pos h]; omega

theorem pyIdx_pos (n : Nat) (i : Int) (h : 0 ≤ i) : pyIdx n i = min i.toNat n := by
  unfold pyIdx; rw [if_neg (by omega)]

theorem pyIdx_le (n : Nat) (i : Int) : pyIdx n i ≤ n := by
  unfold pyIdx; split <;> omega

/-- Successful sliced assignment: when the source shape matches the target
region, `setRegion` returns the updated grid. -/
theorem setRegion_char (g : Grid) (r0 r1 c0 c1 : Int) (src : Grid)
    (hr : src.rows = pyIdx g.rows r1 - pyIdx g.rows r0)
    (hc : src.cols = pyIdx g.cols c1 - pyIdx g.cols c0) :
    setRegion g r0 r1 c0 c1 src = .ok ⟨g.rows, g.cols, fun r c =>
      if pyIdx g.rows r0 ≤ r ∧ r < pyIdx g.rows r1 ∧ pyIdx g.cols c0 ≤ c ∧ c < pyIdx g.cols c1
      then src.data (r - pyIdx g.rows r0) (c - pyIdx g.cols c0) else g.data r c⟩ := by
  unfold setRegion
  rw [if_pos ⟨hr, hc⟩]
theorem pyQuot_nonneg (s stride : Int) (h : 0 < stride) : 0 ≤ pyQuot s stride := by
  simp only [pyQuot]
  have hq : 0 ≤ (s.natAbs : Int) / stride := Int.ediv_nonneg (by omega) (by omega)
  split <;> omega

theorem le_pyQuot_mul (s stride : Int) (h : 0 < stride) :
    (s.natAbs : Int) ≤ pyQuot s stride * stride := by
  simp only [pyQuot]
  have hq := Int.ediv_add_emod ((s.natAbs : Int)) stride
  have hr2 : 0 ≤ ((s.natAbs : Int)) % stride := Int.emod_nonneg _ (by omega)
  have hr3 : ((s.natAbs : Int)) % stride < stride := Int.emod_lt_of_pos _ h
  split
  · have e : ((s.natAbs : Int) / stride + 1) * stride
        = stride * ((s.natAbs : Int) / stride) + stride := by ring
    rw [e]; omega
  · rename_i h1
    have hsd : stride ∣ s := Int.dvd_of_emod_eq_zero (by omega)
    have h0 : ((s.natAbs : Int)) % stride = 0 := Int.emod_eq_zero_of_dvd (Int.dvd_natAbs.mpr hsd)
    have e : (s.natAbs : Int) / stride * stride = stride * ((s.natAbs : Int) / stride) := by ring
    rw [e]; omega

theorem natAbs_le_quot_mul_min (s stride : Int) (n : Nat) (h : 0 < stride)
    (hs : s.natAbs < n) :
    s.natAbs ≤ (pyQuot s stride).toNat * min stride.toNat n := by
  rcases Nat.eq_zero_or_pos s.natAbs with h0 | h0
  · omega
  rcases le_or_lt stride.toNat n with hmn | hmn
  · have h1 := le_pyQuot_mul s stride h
    have h2 := pyQuot_nonneg s stride h
    have h3 : (pyQuot s stride) * stride
        = (((pyQuot s stride).toNat * stride.toNat : Nat) : Int) := by
      rw [Nat.cast_mul, Int.toNat_of_nonneg h2, Int.toNat_of_nonneg (le_of_lt h)]
    rw [h3] at h1
    have h4 : s.natAbs ≤ (pyQuot s stride).toNat * stride.toNat := by exact_mod_cast h1
    rw [Nat.min_eq_left hmn]
    exact h4
  · have hq0 : ((s.natAbs : Int)) / stride = 0 := Int.ediv_eq_zero_of_lt (by omega) (by omega)
    have hnd : ¬ stride ∣ s := by
      intro hd
      have h5 : stride ∣ ((s.natAbs : Int)) := Int.dvd_natAbs.mpr hd
      have := Int.le_of_dvd (by omega) h5
      omega
    have hrem : s % stride ≠ 0 := fun hz => hnd (Int.dvd_of_emod_eq_zero hz)
    have hq1 : pyQuot s stride = 1 := by
      simp only [pyQuot]
      rw [if_pos hrem, hq0]
      omega
    rw [hq1]
    simp only [Int.toNat_one, one_mul]
    omega

/-! ### Characterization of the zero-fill (`stride <= 0`) paths -/

/-- Row pass with `stride <= 0` and an in-range shift: vacated rows are zero,
surviving rows are the translated input. -/
theorem rowPass_zero_char (arr : Grid) (s stride : Int) (hst : stride ≤ 0)
    (hs : s.natAbs < arr.rows) :
    ∃ R, rowPass arr s stride = .ok R ∧ R.rows = arr.rows ∧ R.cols = arr.cols ∧
      ∀ r c, r < arr.rows → c < arr.cols →
        R.data r c = if s ≤ (r : Int) ∧ (r : Int) - s < arr.rows
          then arr.data ((r : Int) - s).toNat c else 0 := by
  rcases lt_trichotomy s 0 with h | h | h
  · -- s < 0 : row_arr[:s, :] = arr[-s:, :]
    have e1 : rowPass arr s stride
        = setRegion (zeros_like arr) 0 s 0 ((zeros_like arr).cols : Int)
          (sliceRows arr (-s) (arr.rows : Int)) := by
      simp only [rowPass, if_neg (show ¬ (s > 0) by omega), if_pos (show s < 0 from h),
        if_neg (show ¬ (stride > 0) by omega)]
    rw [e1, setRegion_char _ _ _ _ _ _ ?hr ?hc]
    case hr =>
      simp only [sliceRows_rows, zeros_like_rows, pyIdx]
      split_ifs <;> omega
    case hc =>
      simp only [sliceRows_cols, zeros_like_cols, pyIdx]
      split_ifs <;> omega
    refine ⟨_, rfl, rfl, rfl, ?_⟩
    intro r c hr hc
    simp only [sliceRows_data, zeros_like_data, zeros_like_rows, zeros_like_cols, pyIdx]
    split_ifs <;> first | rfl | omega | (congr 2 <;> omega)
  · -- s = 0 : full copy
    subst h
    have e1 : rowPass arr 0 stride
        = setRegion (zeros_like arr) 0 ((zeros_like arr).rows : Int) 0
          ((zeros_like arr).cols : Int) arr := by
      simp only [rowPass, if_neg (show ¬ ((0:Int) > 0) by omega),
        if_neg (show ¬ ((0:Int) < 0) by omega)]
    rw [e1, setRegion_char _ _ _ _ _ _ ?hr ?hc]
    case hr =>
      simp only [zeros_like_rows, pyIdx]
      split_ifs <;> omega
    case hc =>
      simp only [zeros_like_cols, pyIdx]
      split_ifs <;> omega
    refine ⟨_, rfl, rfl, rfl, ?_⟩
    intro r c hr hc
    simp only [zeros_like_data, zeros_like_rows, zeros_like_cols, pyIdx]
    split_ifs <;> first | rfl | omega | (congr 2 <;> omega)
  · -- s > 0 : row_arr[s:, :] = arr[:-s, :]
    have e1 : rowPass arr s stride
        = setRegion (zeros_like arr) s ((zeros_like arr).rows : Int) 0
          ((zeros_like arr).cols : Int) (sliceRows arr 0 (-s)) := by
      simp only [rowPass, if_pos (show s > 0 from h), if_neg (show ¬ (stride > 0) by omega)]
    rw [e1, setRegion_char _ _ _ _ _ _ ?hr ?hc]
    case hr =>
      simp only [sliceRows_rows, zeros_like_rows, pyIdx]
      split_ifs <;> omega
    case hc =>
      simp only [sliceRows_cols, zeros_like_cols, pyIdx]
      split_ifs <;> omega
    refine ⟨_, rfl, rfl, rfl, ?_⟩
    intro r c hr hc
    simp only [sliceRows_data, zeros_like_data, zeros_like_rows, zeros_like_cols, pyIdx]
    split_ifs <;> first | rfl | omega | (congr 2 <;> omega)
/-- Column pass with `stride <= 0` and an in-range shift, applied to an
intermediate of the same shape as `arr`. -/
theorem colPass_zero_char (arr row_arr : Grid) (s stride : Int) (hst : stride ≤ 0)
    (hrows : row_arr.rows = arr.rows) (hcols : row_arr.cols = arr.cols)
    (hs : s.natAbs < arr.cols) :
    ∃ N, colPass arr row_arr s stride = .ok N ∧ N.rows = arr.rows ∧ N.cols = arr.cols ∧
      ∀ r c, r < arr.rows → c < arr.cols →
        N.data r c = if s ≤ (c : Int) ∧ (c : Int) - s < arr.cols
          then row_arr.data r ((c : Int) - s).toNat else 0 := by
  rcases lt_trichotomy s 0 with h | h | h
  · -- s < 0 : new_arr[:, :s] = row_arr[:, -s:]
    have e1 : colPass arr row_arr s stride
        = setRegion (zeros_like arr) 0 ((zeros_like arr).rows : Int) 0 s
          (sliceCols row_arr (-s) (row_arr.cols : Int)) := by
      simp only [colPass, if_neg (show ¬ (s > 0) by omega), if_pos (show s < 0 from h),
        if_neg (show ¬ (stride > 0) by omega)]
    rw [e1, setRegion_char _ _ _ _ _ _ ?hr ?hc]
    case hr =>
      simp only [sliceCols_rows, zeros_like_rows, pyIdx]
      split_ifs <;> omega
    case hc =>
      simp only [sliceCols_cols, zeros_like_cols, pyIdx]
      split_ifs <;> omega
    refine ⟨_, rfl, rfl, rfl, ?_⟩
    intro r c hr hc
    simp only [sliceCols_data, zeros_like_data, zeros_like_rows, zeros_like_cols, pyIdx]
    split_ifs <;> first | rfl | omega | (congr 2 <;> omega)
  · -- s = 0 : full copy of the intermediate
    subst h
    have e1 : colPass arr row_arr 0 stride
        = setRegion (zeros_like arr) 0 ((zeros_like arr).rows : Int) 0
          ((zeros_like arr).cols : Int) row_arr := by
      simp only [colPass, if_neg (show ¬ ((0:Int) > 0) by omega),
        if_neg (show ¬ ((0:Int) < 0) by omega)]
    rw [e1, setRegion_char _ _ _ _ _ _ ?hr ?hc]
    case hr =>
      simp only [zeros_like_rows, pyIdx]
      split_ifs <;> omega
    case hc =>
      simp only [zeros_like_cols, pyIdx]
      split_ifs <;> omega
    refine ⟨_, rfl, rfl, rfl, ?_⟩
    intro r c hr hc
    simp only [zeros_like_data, zeros_like_rows, zeros_like_cols, pyIdx]
    split_ifs <;> first | rfl | omega | (congr 2 <;> omega)
  · -- s > 0 : new_arr[:, s:] = row_arr[:, :-s]
    have e1 : colPass arr row_arr s stride
        = setRegion (zeros_like arr) 0 ((zeros_like arr).rows : Int) s
          ((zeros_like arr).cols : Int) (sliceCols row_arr 0 (-s)) := by
      simp only [colPass, if_pos (show s > 0 from h), if_neg (show ¬ (stride > 0) by omega)]
    rw [e1, setRegion_char _ _ _ _ _ _ ?hr ?hc]
    case hr =>
      simp only [sliceCols_rows, zeros_like_rows, pyIdx]
      split_ifs <;> omega
    case hc =>
      simp only [sliceCols_cols, zeros_like_cols, pyIdx]
      split_ifs <;> omega
    refine ⟨_, rfl, rfl, rfl, ?_⟩
    intro r c hr hc
    simp only [sliceCols_data, zeros_like_data, zeros_like_rows, zeros_like_cols, pyIdx]
    split_ifs <;> first | rfl | omega | (congr 2 <;> omega)

/-- `shift_2d` with `stride <= 0` and in-range shifts: the vacated band is
exactly zero and the remaining region is the translated input (C7's shift
half, generalized to any non-positive stride). -/
theorem shift_zero_char (arr : Grid) (sr sc stride : Int) (hst : stride ≤ 0)
    (hr0 : sr.natAbs < arr.rows) (hc0 : sc.natAbs < arr.cols) :
    ∃ out, shift_2d arr (sr, sc) stride = .ok out ∧ out.rows = arr.rows ∧
      out.cols = arr.cols ∧
      ∀ r c, r < arr.rows → c < arr.cols →
        out.data r c = if sr ≤ (r : Int) ∧ (r : Int) - sr < arr.rows ∧
            sc ≤ (c : Int) ∧ (c : Int) - sc < arr.cols
          then arr.data ((r : Int) - sr).toNat ((c : Int) - sc).toNat else 0 := by
  obtain ⟨R, hR, hRr, hRc, hRd⟩ := rowPass_zero_char arr sr stride hst hr0
  obtain ⟨N, hN, hNr, hNc, hNd⟩ := colPass_zero_char arr R sc stride hst hRr hRc hc0
  refine ⟨N, ?_, hNr, hNc, ?_⟩
  · show (rowPass arr sr stride >>= fun row_arr => colPass arr row_arr sc stride) = .ok N
    rw [hR]
    exact hN
  · intro r c hr hc
    rw [hNd r c hr hc]
    by_cases hcc : sc ≤ (c : Int) ∧ (c : Int) - sc < arr.cols
    · rw [if_pos hcc, hRd r ((c : Int) - sc).toNat hr (by omega)]
      split_ifs <;> first | rfl | omega
    · rw [if_neg hcc, if_neg (by tauto)]
/-- Congruence helper for grid indexing. -/
theorem dataCongr (g : Grid) {a b c d : Nat} (h1 : a = b) (h2 : c = d) :
    g.data a c = g.data b d := by rw [h1, h2]

/-- Congruence helper for remainders with provably equal arguments. -/
theorem modCongr {a b m n : Nat} (h2 : a = b) (h3 : m = n) : a % m = b % n := by rw [h2, h3]

/-- Congruence helper for an offset plus a remainder. -/
theorem addModCongr {o1 o2 a b m n : Nat} (h1 : o1 = o2) (h2 : a = b) (h3 : m = n) :
    o1 + a % m = o2 + b % n := by rw [h1, h2, h3]

/-! ### Characterization of the strided-replication (`stride > 0`) paths -/

/-- Row pass with `stride > 0` and an in-range shift: the output at row `r` is
the input at row `shiftIdx arr.rows s stride r`. -/
theorem rowPass_pos_char (arr : Grid) (s stride : Int) (hst : 0 < stride)
    (hs : s.natAbs < arr.rows) :
    ∃ R, rowPass arr s stride = .ok R ∧ R.rows = arr.rows ∧ R.cols = arr.cols ∧
      ∀ r c, r < arr.rows → c < arr.cols →
        R.data r c = arr.data (shiftIdx arr.rows s stride r) c := by
  rcases lt_trichotomy s 0 with h | h | h
  · -- s < 0 : vstack (arr[-s:, :]) (tile(arr[-stride:, :])[: -s, :])
    have e1 : rowPass arr s stride
        = .ok (vstack (sliceRows arr (-s) (arr.rows : Int))
            (sliceRows (tileV (sliceRows arr (-stride) (arr.rows : Int))
              (pyQuot s stride).toNat) 0 (-s))) := by
      simp only [rowPass, if_neg (show ¬ (s > 0) by omega), if_pos (show s < 0 from h),
        if_pos (show stride > 0 from hst)]
    have hA2 : pyIdx arr.rows (-s) = min (-s).toNat arr.rows := pyIdx_pos _ _ (by omega)
    have hA4 : pyIdx arr.rows (-stride) = arr.rows - stride.natAbs := by
      rw [pyIdx_neg _ _ (by omega : -stride < 0)]; omega
    have hA5 : (-s).toNat = s.natAbs := by omega
    have hA6 : min s.natAbs arr.rows = s.natAbs := by omega
    rw [e1]
    refine ⟨_, rfl, ?_, ?_, ?_⟩
    · simp only [vstack_rows, sliceRows_rows, tileV_rows, pyIdx_self, pyIdx_zero,
        hA2, hA4, hA5, hA6, Nat.sub_zero]
      have hmin : arr.rows - (arr.rows - stride.natAbs) = min stride.toNat arr.rows := by omega
      rw [hmin]
      have hP := natAbs_le_quot_mul_min s stride arr.rows hst hs
      have hp2 : pyIdx ((pyQuot s stride).toNat * min stride.toNat arr.rows) (-s)
          = min (-s).toNat ((pyQuot s stride).toNat * min stride.toNat arr.rows) :=
        pyIdx_pos _ _ (by omega)
      rw [hp2, hA5]
      omega
    · rfl
    · intro r c hr hc
      have hP := natAbs_le_quot_mul_min s stride arr.rows hst hs
      simp only [vstack_data, sliceRows_data, tileV_data, sliceRows_rows, tileV_rows,
        pyIdx_self, pyIdx_zero, hA2, hA4, hA5, hA6, Nat.sub_zero, Nat.zero_add]
      have hmin : arr.rows - (arr.rows - stride.natAbs) = min stride.toNat arr.rows := by omega
      rw [hmin]
      simp only [shiftIdx, if_neg (show ¬ (0 < s) by omega), if_pos (show s < 0 from h)]
      split_ifs <;>
        first | rfl | omega |
          (apply dataCongr <;>
            first | omega | (apply modCongr <;> omega) | (apply addModCongr <;> omega))
  · -- s = 0 : full copy
    subst h
    have e1 : rowPass arr 0 stride
        = setRegion (zeros_like arr) 0 ((zeros_like arr).rows : Int) 0
          ((zeros_like arr).cols : Int) arr := by
      simp only [rowPass, if_neg (show ¬ ((0:Int) > 0) by omega),
        if_neg (show ¬ ((0:Int) < 0) by omega)]
    rw [e1, setRegion_char _ _ _ _ _ _ ?hr ?hc]
    case hr =>
      simp only [zeros_like_rows, pyIdx]
      split_ifs <;> omega
    case hc =>
      simp only [zeros_like_cols, pyIdx]
      split_ifs <;> omega
    refine ⟨_, rfl, rfl, rfl, ?_⟩
    intro r c hr hc
    simp only [zeros_like_data, zeros_like_rows, zeros_like_cols, pyIdx,
      shiftIdx, if_neg (show ¬ ((0:Int) < 0) by omega), if_neg (show ¬ (0 < (0:Int)) by omega)]
    split_ifs <;>
      first | rfl | omega |
        (apply dataCongr <;>
          first | omega | (apply modCongr <;> omega) | (apply addModCongr <;> omega))
  · -- s > 0 : vstack (tile(arr[:stride, :])[-s:, :]) (arr[:-s, :])
    have e1 : rowPass arr s stride
        = .ok (vstack
            (sliceRows (tileV (sliceRows arr 0 stride) (pyQuot s stride).toNat) (-s)
              (((tileV (sliceRows arr 0 stride) (pyQuot s stride).toNat)).rows : Int))
            (sliceRows arr 0 (-s))) := by
      simp only [rowPass, if_pos (show s > 0 from h), if_pos (show stride > 0 from hst)]
    have hA1 : pyIdx arr.rows 0 = 0 := pyIdx_zero _
    have hA2 : pyIdx arr.rows (-s) = arr.rows - s.natAbs := by
      rw [pyIdx_neg _ _ (by omega : -s < 0)]; omega
    have hA3 : pyIdx arr.rows stride = min stride.toNat arr.rows := pyIdx_pos _ _ (by omega)
    rw [e1]
    refine ⟨_, rfl, ?_, ?_, ?_⟩
    · simp only [vstack_rows, sliceRows_rows, tileV_rows, pyIdx_self, hA1, hA2, hA3,
        Nat.sub_zero]
      have hP := natAbs_le_quot_mul_min s stride arr.rows hst hs
      have hp2 : pyIdx ((pyQuot s stride).toNat * min stride.toNat arr.rows) (-s)
          = (pyQuot s stride).toNat * min stride.toNat arr.rows - s.natAbs := by
        rw [pyIdx_neg _ _ (by omega : -s < 0)]; omega
      rw [hp2]
      omega
    · rfl
    · intro r c hr hc
      have hP := natAbs_le_quot_mul_min s stride arr.rows hst hs
      simp only [vstack_data, sliceRows_data, tileV_data, sliceRows_rows, tileV_rows,
        sliceRows_cols, pyIdx_self, hA1, hA2, hA3, Nat.sub_zero, Nat.zero_add]
      have hp2 : pyIdx ((pyQuot s stride).toNat * min stride.toNat arr.rows) (-s)
          = (pyQuot s stride).toNat * min stride.toNat arr.rows - s.natAbs := by
        rw [pyIdx_neg _ _ (by omega : -s < 0)]; omega
      rw [hp2]
      simp only [shiftIdx, if_pos (show 0 < s from h)]
      split_ifs <;>
        first | rfl | omega |
          (apply dataCongr <;>
            first | omega | (apply modCongr <;> omega) | (apply addModCongr <;> omega))
/-- Column pass with `stride > 0` and an in-range shift, applied to an
intermediate of the same shape as `arr`: the output at column `c` is the
intermediate at column `shiftIdx arr.cols s stride c`. -/
theorem colPass_pos_char (arr row_arr : Grid) (s stride : Int) (hst : 0 < stride)
    (hrows : row_arr.rows = arr.rows) (hcols : row_arr.cols = arr.cols)
    (hs : s.natAbs < arr.cols) :
    ∃ N, colPass arr row_arr s stride = .ok N ∧ N.rows = arr.rows ∧ N.cols = arr.cols ∧
      ∀ r c, r < arr.rows → c < arr.cols →
        N.data r c = row_arr.data r (shiftIdx arr.cols s stride c) := by
  rcases lt_trichotomy s 0 with h | h | h
  · -- s < 0 : hstack (row_arr[:, -s:]) (tile(row_arr[:, -stride:])[:, :-s])
    have e1 : colPass arr row_arr s stride
        = .ok (hstack (sliceCols row_arr (-s) (row_arr.cols : Int))
            (sliceCols (tileH (sliceCols row_arr (-stride) (row_arr.cols : Int))
              (pyQuot s stride).toNat) 0 (-s))) := by
      simp only [colPass, if_neg (show ¬ (s > 0) by omega), if_pos (show s < 0 from h),
        if_pos (show stride > 0 from hst)]
    have hA2 : pyIdx arr.cols (-s) = min (-s).toNat arr.cols := pyIdx_pos _ _ (by omega)
    have hA4 : pyIdx arr.cols (-stride) = arr.cols - stride.natAbs := by
      rw [pyIdx_neg _ _ (by omega : -stride < 0)]; omega
    have hA5 : (-s).toNat = s.natAbs := by omega
    have hA6 : min s.natAbs arr.cols = s.natAbs := by omega
    rw [e1]
    refine ⟨_, rfl, hrows ▸ rfl, ?_, ?_⟩
    · simp only [hstack_cols, sliceCols_cols, tileH_cols, pyIdx_self, pyIdx_zero,
        hcols, hA2, hA4, hA5, hA6, Nat.sub_zero]
      have hmin : arr.cols - (arr.cols - stride.natAbs) = min stride.toNat arr.cols := by omega
      rw [hmin]
      have hP := natAbs_le_quot_mul_min s stride arr.cols hst hs
      have hp2 : pyIdx ((pyQuot s stride).toNat * min stride.toNat arr.cols) (-s)
          = min (-s).toNat ((pyQuot s stride).toNat * min stride.toNat arr.cols) :=
        pyIdx_pos _ _ (by omega)
      rw [hp2, hA5]
      omega
    · intro r c hr hc
      have hP := natAbs_le_quot_mul_min s stride arr.cols hst hs
      simp only [hstack_data, sliceCols_data, tileH_data, sliceCols_cols, tileH_cols,
        pyIdx_self, pyIdx_zero, hcols, hA2, hA4, hA5, hA6, Nat.sub_zero, Nat.zero_add]
      have hmin : arr.cols - (arr.cols - stride.natAbs) = min stride.toNat arr.cols := by omega
      rw [hmin]
      simp only [shiftIdx, if_neg (show ¬ (0 < s) by omega), if_pos (show s < 0 from h)]
      split_ifs <;>
        first | rfl | omega |
          (apply dataCongr <;>
            first | omega | (apply modCongr <;> omega) | (apply addModCongr <;> omega))
  · -- s = 0 : full copy of the intermediate
    subst h
    have e1 : colPass arr row_arr 0 stride
        = setRegion (zeros_like arr) 0 ((zeros_like arr).rows : Int) 0
          ((zeros_like arr).cols : Int) row_arr := by
      simp only [colPass, if_neg (show ¬ ((0:Int) > 0) by omega),
        if_neg (show ¬ ((0:Int) < 0) by omega)]
    rw [e1, setRegion_char _ _ _ _ _ _ ?hr ?hc]
    case hr =>
      simp only [zeros_like_rows, hrows, pyIdx]
      split_ifs <;> omega
    case hc =>
      simp only [zeros_like_cols, hcols, pyIdx]
      split_ifs <;> omega
    refine ⟨_, rfl, rfl, rfl, ?_⟩
    intro r c hr hc
    simp only [zeros_like_data, zeros_like_rows, zeros_like_cols, pyIdx,
      shiftIdx, if_neg (show ¬ ((0:Int) < 0) by omega), if_neg (show ¬ (0 < (0:Int)) by omega)]
    split_ifs <;>
      first | rfl | omega |
        (apply dataCongr <;>
          first | omega | (apply modCongr <;> omega) | (apply addModCongr <;> omega))
  · -- s > 0 : hstack (tile(row_arr[:, :stride])[:, -s:]) (row_arr[:, :-s])
    have e1 : colPass arr row_arr s stride
        = .ok (hstack
            (sliceCols (tileH (sliceCols row_arr 0 stride) (pyQuot s stride).toNat) (-s)
              (((tileH (sliceCols row_arr 0 stride) (pyQuot s stride).toNat)).cols : Int))
            (sliceCols row_arr 0 (-s))) := by
      simp only [colPass, if_pos (show s > 0 from h), if_pos (show stride > 0 from hst)]
    have hA1 : pyIdx arr.cols 0 = 0 := pyIdx_zero _
    have hA2 : pyIdx arr.cols (-s) = arr.cols - s.natAbs := by
      rw [pyIdx_neg _ _ (by omega : -s < 0)]; omega
    have hA3 : pyIdx arr.cols stride = min stride.toNat arr.cols := pyIdx_pos _ _ (by omega)
    rw [e1]
    refine ⟨_, rfl, hrows ▸ rfl, ?_, ?_⟩
    · simp only [hstack_cols, sliceCols_cols, tileH_cols, pyIdx_self, hcols, hA1, hA2, hA3,
        Nat.sub_zero]
      have hP := natAbs_le_quot_mul_min s stride arr.cols hst hs
      have hp2 : pyIdx ((pyQuot s stride).toNat * min stride.toNat arr.cols) (-s)
          = (pyQuot s stride).toNat * min stride.toNat arr.cols - s.natAbs := by
        rw [pyIdx_neg _ _ (by omega : -s < 0)]; omega
      rw [hp2]
      omega
    · intro r c hr hc
      have hP := natAbs_le_quot_mul_min s stride arr.cols hst hs
      simp only [hstack_data, sliceCols_data, tileH_data, sliceCols_cols, tileH_cols,
        pyIdx_self, hcols, hA1, hA2, hA3, Nat.sub_zero, Nat.zero_add]
      have hp2 : pyIdx ((pyQuot s stride).toNat * min stride.toNat arr.cols) (-s)
          = (pyQuot s stride).toNat * min stride.toNat arr.cols - s.natAbs := by
        rw [pyIdx_neg _ _ (by omega : -s < 0)]; omega
      rw [hp2]
      simp only [shiftIdx, if_pos (show 0 < s from h)]
      split_ifs <;>
        first | rfl | omega |
          (apply dataCongr <;>
            first | omega | (apply modCongr <;> omega) | (apply addModCongr <;> omega))

/-- The index produced by a shift pass stays inside the axis. -/
theorem shiftIdx_lt (n : Nat) (s stride : Int) (r : Nat) (hst : 0 < stride)
    (hs : s.natAbs < n) (hr : r < n) :
    shiftIdx n s stride r < n := by
  simp only [shiftIdx]
  have hL : 0 < min stride.toNat n := by omega
  split_ifs with h1 h2 h3 h4
  · have := Nat.mod_lt ((pyQuot s stride).toNat * min stride.toNat n - s.toNat + r) hL
    omega
  · omega
  · omega
  · have := Nat.mod_lt (r - (n - s.natAbs)) hL
    omega
  · omega

/-- `shift_2d` with `stride > 0` and in-range shifts: output entry `(r, c)` is
the input entry at `(shiftIdx rows sr stride r, shiftIdx cols sc stride c)`. -/
theorem shift_pos_char (arr : Grid) (sr sc stride : Int) (hst : 0 < stride)
    (h1 : sr.natAbs < arr.rows) (h2 : sc.natAbs < arr.cols) :
    ∃ out, shift_2d arr (sr, sc) stride = .ok out ∧ out.rows = arr.rows ∧
      out.cols = arr.cols ∧
      ∀ r c, r < arr.rows → c < arr.cols →
        out.data r c
          = arr.data (shiftIdx arr.rows sr stride r) (shiftIdx arr.cols sc stride c) := by
  obtain ⟨R, hR, hRr, hRc, hRd⟩ := rowPass_pos_char arr sr stride hst h1
  obtain ⟨N, hN, hNr, hNc, hNd⟩ := colPass_pos_char arr R sc stride hst hRr hRc h2
  refine ⟨N, ?_, hNr, hNc, ?_⟩
  · show (rowPass arr sr stride >>= fun row_arr => colPass arr row_arr sc stride) = .ok N
    rw [hR]
    exact hN
  · intro r c hr hc
    rw [hNd r c hr hc, hRd r (shiftIdx arr.cols sc stride c) hr (shiftIdx_lt _ _ _ _ hst h2 hc)]
/-! ### Characterization of `add_border_2d` -/

theorem nat_le_pyQuot_mul (b : Nat) (stride : Int) (h : 0 < stride) :
    b ≤ (pyQuot (b : Int) stride).toNat * stride.toNat := by
  have h1 := le_pyQuot_mul (b : Int) stride h
  have h2 := pyQuot_nonneg (b : Int) stride h
  have h3 : (pyQuot (b : Int) stride) * stride
      = (((pyQuot (b : Int) stride).toNat * stride.toNat : Nat) : Int) := by
    rw [Nat.cast_mul, Int.toNat_of_nonneg h2, Int.toNat_of_nonneg (le_of_lt h)]
  rw [h3] at h1
  have h4 : (b : Int).natAbs = b := by omega
  rw [h4] at h1
  exact_mod_cast h1

/-- Copying `arr` into the centre `new_arr[b:-b, b:-b]` of the zero grid. -/
theorem borderCenterFill (arr : Grid) (b : Nat) (hb : 1 ≤ b) :
    ∃ G, setRegion (zeros (arr.rows + b * 2) (arr.cols + b * 2)) (b : Int) (-(b : Int))
        (b : Int) (-(b : Int)) arr = .ok G ∧
      G.rows = arr.rows + b * 2 ∧ G.cols = arr.cols + b * 2 ∧
      ∀ r c, G.data r c = if b ≤ r ∧ r < b + arr.rows ∧ b ≤ c ∧ c < b + arr.cols
        then arr.data (r - b) (c - b) else 0 := by
  rw [setRegion_char _ _ _ _ _ _ ?hr ?hc]
  case hr =>
    simp only [zeros_rows, pyIdx]
    split_ifs <;> omega
  case hc =>
    simp only [zeros_cols, pyIdx]
    split_ifs <;> omega
  refine ⟨_, rfl, rfl, rfl, ?_⟩
  intro r c
  simp only [zeros_rows, zeros_cols, zeros_data, pyIdx]
  split_ifs <;>
    first | rfl | omega |
      (apply dataCongr <;>
        first | omega | (apply modCongr <;> omega) | (apply addModCongr <;> omega))

/-- The top border fill: `new_arr[:b, :] = tile(new_arr[b:b+stride, :])[:b, :]`.
The written rows replicate the `stride` rows just below the border, cropped
from the START of the tiling (leading crop). -/
theorem borderTopFill (g : Grid) (b : Nat) (stride : Int) (hst : 0 < stride)
    (hb : 1 ≤ b) (hdim : b + stride.toNat ≤ g.rows) :
    ∃ G, setRegion g 0 (b : Int) 0 (g.cols : Int)
        (sliceRows (tileV (sliceRows g (b : Int) ((b : Int) + stride))
          (pyQuot (b : Int) stride).toNat) 0 (b : Int)) = .ok G ∧
      G.rows = g.rows ∧ G.cols = g.cols ∧
      ∀ r c, G.data r c = if r < b ∧ c < g.cols
        then g.data (b + r % stride.toNat) c else g.data r c := by
  have hT : pyIdx g.rows ((b : Int) + stride) - pyIdx g.rows (b : Int) = stride.toNat := by
    simp only [pyIdx]; split_ifs <;> omega
  have hQ := nat_le_pyQuot_mul b stride hst
  rw [setRegion_char _ _ _ _ _ _ ?hr ?hc]
  case hr =>
    simp only [sliceRows_rows, tileV_rows, hT]
    simp only [pyIdx]
    split_ifs <;> omega
  case hc =>
    simp only [sliceRows_cols, tileV_cols, pyIdx]
    split_ifs <;> omega
  refine ⟨_, rfl, rfl, rfl, ?_⟩
  intro r c
  simp only [sliceRows_data, tileV_data, sliceRows_rows, tileV_rows, hT]
  simp only [pyIdx, Nat.zero_add, Nat.sub_zero]
  split_ifs <;>
    first | rfl | omega |
      (apply dataCongr <;>
        first | omega | (apply modCongr <;> omega) | (apply addModCongr <;> omega))

/-- The bottom border fill:
`new_arr[-b:, :] = tile(new_arr[-(b+stride):-b, :])[:b, :]` — also a LEADING
crop of the tiling of the `stride` rows just above the border. -/
theorem borderBottomFill (g : Grid) (b : Nat) (stride : Int) (hst : 0 < stride)
    (hb : 1 ≤ b) (hdim : b + stride.toNat ≤ g.rows) :
    ∃ G, setRegion g (-(b : Int)) (g.rows : Int) 0 (g.cols : Int)
        (sliceRows (tileV (sliceRows g (-((b : Int) + stride)) (-(b : Int)))
          (pyQuot (b : Int) stride).toNat) 0 (b : Int)) = .ok G ∧
      G.rows = g.rows ∧ G.cols = g.cols ∧
      ∀ r c, G.data r c = if g.rows - b ≤ r ∧ r < g.rows ∧ c < g.cols
        then g.data (g.rows - (b + stride.toNat) + ((r - (g.rows - b)) % stride.toNat)) c
        else g.data r c := by
  have hT : pyIdx g.rows (-(b : Int)) - pyIdx g.rows (-((b : Int) + stride))
      = stride.toNat := by
    simp only [pyIdx]; split_ifs <;> omega
  have hQ := nat_le_pyQuot_mul b stride hst
  rw [setRegion_char _ _ _ _ _ _ ?hr ?hc]
  case hr =>
    simp only [sliceRows_rows, tileV_rows, hT]
    simp only [pyIdx]
    split_ifs <;> omega
  case hc =>
    simp only [sliceRows_cols, tileV_cols, pyIdx]
    split_ifs <;> omega
  refine ⟨_, rfl, rfl, rfl, ?_⟩
  intro r c
  simp only [sliceRows_data, tileV_data, sliceRows_rows, tileV_rows, hT]
  simp only [pyIdx, Nat.zero_add, Nat.sub_zero]
  split_ifs <;>
    first | rfl | omega |
      (apply dataCongr <;>
        first | omega | (apply modCongr <;> omega) | (apply addModCongr <;> omega))

/-- The left border fill: `new_arr[:, :b] = tile(new_arr[:, b:b+stride])[:, :b]`
— a LEADING crop of the tiling of the `stride` columns just right of the
border. -/
theorem borderLeftFill (g : Grid) (b : Nat) (stride : Int) (hst : 0 < stride)
    (hb : 1 ≤ b) (hdim : b + stride.toNat ≤ g.cols) :
    ∃ G, setRegion g 0 (g.rows : Int) 0 (b : Int)
        (sliceCols (tileH (sliceCols g (b : Int) ((b : Int) + stride))
          (pyQuot (b : Int) stride).toNat) 0 (b : Int)) = .ok G ∧
      G.rows = g.rows ∧ G.cols = g.cols ∧
      ∀ r c, G.data r c = if r < g.rows ∧ c < b
        then g.data r (b + c % stride.toNat) else g.data r c := by
  have hT : pyIdx g.cols ((b : Int) + stride) - pyIdx g.cols (b : Int) = stride.toNat := by
    simp only [pyIdx]; split_ifs <;> omega
  have hQ := nat_le_pyQuot_mul b stride hst
  rw [setRegion_char _ _ _ _ _ _ ?hr ?hc]
  case hr =>
    simp only [sliceCols_rows, tileH_rows, pyIdx]
    split_ifs <;> omega
  case hc =>
    simp only [sliceCols_cols, tileH_cols, hT]
    simp only [pyIdx]
    split_ifs <;> omega
  refine ⟨_, rfl, rfl, rfl, ?_⟩
  intro r c
  simp only [sliceCols_data, tileH_data, sliceCols_cols, tileH_cols, hT]
  simp only [pyIdx, Nat.zero_add, Nat.sub_zero]
  split_ifs <;>
    first | rfl | omega |
      (apply dataCongr <;>
        first | omega | (apply modCongr <;> omega) | (apply addModCongr <;> omega))

/-- The right border fill:
`new_arr[:, -b:] = tile(new_arr[:, -(b+stride):-b])[:, :b]` — also a LEADING
crop. -/
theorem borderRightFill (g : Grid) (b : Nat) (stride : Int) (hst : 0 < stride)
    (hb : 1 ≤ b) (hdim : b + stride.toNat ≤ g.cols) :
    ∃ G, setRegion g 0 (g.rows : Int) (-(b : Int)) (g.cols : Int)
        (sliceCols (tileH (sliceCols g (-((b : Int) + stride)) (-(b : Int)))
          (pyQuot (b : Int) stride).toNat) 0 (b : Int)) = .ok G ∧
      G.rows = g.rows ∧ G.cols = g.cols ∧
      ∀ r c, G.data r c = if r < g.rows ∧ g.cols - b ≤ c ∧ c < g.cols
        then g.data r (g.cols - (b + stride.toNat) + ((c - (g.cols - b)) % stride.toNat))
        else g.data r c := by
  have hT : pyIdx g.cols (-(b : Int)) - pyIdx g.cols (-((b : Int) + stride))
      = stride.toNat := by
    simp only [pyIdx]; split_ifs <;> omega
  have hQ := nat_le_pyQuot_mul b stride hst
  rw [setRegion_char _ _ _ _ _ _ ?hr ?hc]
  case hr =>
    simp only [sliceCols_rows, tileH_rows, pyIdx]
    split_ifs <;> omega
  case hc =>
    simp only [sliceCols_cols, tileH_cols, hT]
    simp only [pyIdx]
    split_ifs <;> omega
  refine ⟨_, rfl, rfl, rfl, ?_⟩
  intro r c
  simp only [sliceCols_data, tileH_data, sliceCols_cols, tileH_cols, hT]
  simp only [pyIdx, Nat.zero_add, Nat.sub_zero]
  split_ifs <;>
    first | rfl | omega |
      (apply dataCongr <;>
        first | omega | (apply modCongr <;> omega) | (apply addModCongr <;> omega))
theorem okBind (x : Grid) (f : Grid → Except String Grid) : (Except.ok x >>= f) = f x := rfl

/-- `add_border_2d` with `stride <= 0` and `border_width >= 1`: the border is
exactly zero and the centre is the input. -/
theorem add_border_zero_char (arr : Grid) (b : Nat) (stride : Int) (hst : stride ≤ 0)
    (hb : 1 ≤ b) :
    ∃ out, add_border_2d arr b stride = .ok out ∧ out.rows = arr.rows + b * 2 ∧
      out.cols = arr.cols + b * 2 ∧
      ∀ r c, out.data r c = if b ≤ r ∧ r < b + arr.rows ∧ b ≤ c ∧ c < b + arr.cols
        then arr.data (r - b) (c - b) else 0 := by
  obtain ⟨G1, hG1, hG1r, hG1c, hG1d⟩ := borderCenterFill arr b hb
  refine ⟨G1, ?_, hG1r, hG1c, hG1d⟩
  simp only [add_border_2d, hG1, okBind, if_neg (show ¬ (stride > 0) by omega)]
  rfl
/-- Congruence helper: an offset plus a remainder, then a subtraction. -/
theorem subAddModCongr {o1 o2 k a b m n : Nat} (hk : k ≤ o1) (ho : o1 - k = o2)
    (h2 : a = b) (h3 : m = n) : o1 + a % m - k = o2 + b % n := by
  subst h2; subst h3; omega

/-- Congruence helper: an offset plus a remainder minus the same offset. -/
theorem addModSubCongr {k a b m n : Nat} (h2 : a = b) (h3 : m = n) :
    k + a % m - k = b % n := by
  subst h2; subst h3; omega

/-- `add_border_2d` with `0 < stride <= min(rows, cols)` and
`border_width >= 1`: output entry `(r, c)` is the input entry at
`(borderIdx rows b stride r, borderIdx cols b stride c)`.  In particular every
border row/column is a LEADING crop of the tiled edge block on each side. -/
theorem add_border_pos_char (arr : Grid) (b : Nat) (stride : Int) (hst : 0 < stride)
    (hb : 1 ≤ b) (hsr : stride ≤ (arr.rows : Int)) (hsc : stride ≤ (arr.cols : Int)) :
    ∃ out, add_border_2d arr b stride = .ok out ∧ out.rows = arr.rows + b * 2 ∧
      out.cols = arr.cols + b * 2 ∧
      ∀ r c, r < arr.rows + b * 2 → c < arr.cols + b * 2 →
        out.data r c = arr.data (borderIdx arr.rows b stride.toNat r)
          (borderIdx arr.cols b stride.toNat c) := by
  have hst1 : 1 ≤ stride.toNat := by omega
  have hstr : stride.toNat ≤ arr.rows := by omega
  have hstc : stride.toNat ≤ arr.cols := by omega
  obtain ⟨G1, hG1, hG1r, hG1c, hG1d⟩ := borderCenterFill arr b hb
  obtain ⟨G2, hG2, hG2r, hG2c, hG2d⟩ :=
    borderTopFill G1 b stride hst hb (by omega)
  obtain ⟨G3, hG3, hG3r, hG3c, hG3d⟩ :=
    borderBottomFill G2 b stride hst hb (by omega)
  obtain ⟨G4, hG4, hG4r, hG4c, hG4d⟩ :=
    borderLeftFill G3 b stride hst hb (by omega)
  obtain ⟨G5, hG5, hG5r, hG5c, hG5d⟩ :=
    borderRightFill G4 b stride hst hb (by omega)
  -- normalize all dimensions to those of `arr`
  have hR2 : G2.rows = arr.rows + b * 2 := by omega
  have hC2 : G2.cols = arr.cols + b * 2 := by omega
  have hR3 : G3.rows = arr.rows + b * 2 := by omega
  have hC3 : G3.cols = arr.cols + b * 2 := by omega
  have hR4 : G4.rows = arr.rows + b * 2 := by omega
  have hC4 : G4.cols = arr.cols + b * 2 := by omega
  have hR5 : G5.rows = arr.rows + b * 2 := by omega
  have hC5 : G5.cols = arr.cols + b * 2 := by omega
  simp only [hG1r, hG1c] at hG2d
  simp only [hR2, hC2] at hG3d
  simp only [hR3, hC3] at hG4d
  simp only [hR4, hC4] at hG5d
  refine ⟨G5, ?_, hR5, hC5, ?_⟩
  · simp only [add_border_2d, hG1, okBind, if_pos (show stride > 0 from hst), hG2, hG3,
      hG4, hG5]
  · -- pointwise composition of the five stages
    have hmodpos : 0 < stride.toNat := hst1
    -- rows: compose bottom over top over centre
    have h31 : ∀ r c, r < arr.rows + b * 2 → c < arr.cols + b * 2 →
        G3.data r c = G1.data
          (if r < b then b + r % stride.toNat
           else if r < arr.rows + b * 2 - b then r
           else arr.rows + b * 2 - (b + stride.toNat)
             + ((r - (arr.rows + b * 2 - b)) % stride.toNat)) c := by
      intro r c hr hc
      rw [hG3d r c]
      by_cases hbot : arr.rows + b * 2 - b ≤ r
      · rw [if_pos ⟨hbot, hr, hc⟩]
        have hm := Nat.mod_lt (r - (arr.rows + b * 2 - b)) hmodpos
        rw [hG2d, if_neg (by omega), if_neg (show ¬ r < b by omega),
          if_neg (show ¬ r < arr.rows + b * 2 - b by omega)]
      · rw [if_neg (fun hcon => hbot hcon.1)]
        by_cases htop : r < b
        · rw [hG2d, if_pos ⟨htop, hc⟩, if_pos htop]
        · rw [hG2d, if_neg (fun hcon => htop hcon.1), if_neg htop, if_pos (by omega)]
    -- cols: compose right over left, on top of G3
    have h53 : ∀ r c, r < arr.rows + b * 2 → c < arr.cols + b * 2 →
        G5.data r c = G3.data r
          (if c < b then b + c % stride.toNat
           else if c < arr.cols + b * 2 - b then c
           else arr.cols + b * 2 - (b + stride.toNat)
             + ((c - (arr.cols + b * 2 - b)) % stride.toNat)) := by
      intro r c hr hc
      rw [hG5d r c]
      by_cases hrt : arr.cols + b * 2 - b ≤ c
      · rw [if_pos ⟨hr, hrt, hc⟩]
        have hm := Nat.mod_lt (c - (arr.cols + b * 2 - b)) hmodpos
        rw [hG4d, if_neg (by omega), if_neg (show ¬ c < b by omega),
          if_neg (show ¬ c < arr.cols + b * 2 - b by omega)]
      · rw [if_neg (fun hcon => hrt hcon.2.1)]
        by_cases hlt : c < b
        · rw [hG4d, if_pos ⟨hr, hlt⟩, if_pos hlt]
        · rw [hG4d, if_neg (fun hcon => hlt hcon.2), if_neg hlt, if_pos (by omega)]
    intro r c hr hc
    have hmc : (if c < b then b + c % stride.toNat
        else if c < arr.cols + b * 2 - b then c
        else arr.cols + b * 2 - (b + stride.toNat)
          + ((c - (arr.cols + b * 2 - b)) % stride.toNat)) < arr.cols + b * 2 := by
      have hm1 := Nat.mod_lt c hmodpos
      have hm2 := Nat.mod_lt (c - (arr.cols + b * 2 - b)) hmodpos
      split_ifs <;> omega
    rw [h53 r c hr hc, h31 r _ hr hmc, hG1d]
    have hm1 := Nat.mod_lt c hmodpos
    have hm2 := Nat.mod_lt (c - (arr.cols + b * 2 - b)) hmodpos
    have hm3 := Nat.mod_lt r hmodpos
    have hm4 := Nat.mod_lt (r - (arr.rows + b * 2 - b)) hmodpos
    rw [if_pos (by split_ifs <;> omega)]
    simp only [borderIdx]
    split_ifs <;>
      apply dataCongr <;>
        first | omega | (apply modCongr <;> omega) | (apply addModCongr <;> omega) |
          (apply addModSubCongr <;> omega) | (apply subAddModCongr <;> omega)
/-! ### Periodicity machinery -/

/-- Descend an integer congruence on casts to a `Nat` congruence. -/
theorem natMod_of_intMod {a b p : Nat} (h : ((a : Int)) % (p : Int) = ((b : Int)) % (p : Int)) :
    a % p = b % p := by
  have h2 : ((a % p : Nat) : Int) = ((b % p : Nat) : Int) := by
    rw [Int.natCast_mod, Int.natCast_mod]; exact h
  exact_mod_cast h2

/-- Iterated application of row periodicity. -/
theorem periodic_step (g : Grid) (p : Nat) (hP : RowPeriodic g p) :
    ∀ (k a j : Nat), a + k * p < g.rows → j < g.cols → g.data a j = g.data (a + k * p) j := by
  intro k
  induction k with
  | zero =>
    intro a j h hj
    exact dataCongr g (by omega) rfl
  | succ k ih =>
    intro a j h hj
    have e : (k + 1) * p = k * p + p := by ring
    have h1 : a + k * p < g.rows := by omega
    have h2 := ih a j h1 hj
    have h4 := hP (a + k * p) (by omega) j hj
    rw [h2, h4]
    exact dataCongr g (by omega) rfl

/-- Two in-bounds rows congruent modulo the period carry equal data. -/
theorem periodic_congr (g : Grid) (p : Nat) (hP : RowPeriodic g p) (hp : 0 < p)
    {a b j : Nat} (ha : a < g.rows) (hb : b < g.rows) (hj : j < g.cols)
    (hmod : a % p = b % p) : g.data a j = g.data b j := by
  rcases le_total a b with hab | hab
  · have hdvd : p ∣ b - a := (Nat.modEq_iff_dvd' hab).mp hmod
    obtain ⟨k, hk⟩ := hdvd
    have e : p * k = k * p := Nat.mul_comm p k
    have hb' : b = a + k * p := by omega
    subst hb'
    exact periodic_step g p hP k a j hb hj
  · have hdvd : p ∣ a - b := (Nat.modEq_iff_dvd' hab).mp hmod.symm
    obtain ⟨k, hk⟩ := hdvd
    have e : p * k = k * p := Nat.mul_comm p k
    have ha' : a = b + k * p := by omega
    subst ha'
    exact (periodic_step g p hP k b j ha hj).symm

/-- The index map of a shift pass is congruent to `r - s` modulo any divisor
`p` of the stride (when the stride fits the axis). -/
theorem shiftIdx_emod (n : Nat) (s stride : Int) (p : Nat) (r : Nat)
    (hst : 0 < stride) (hsn : stride ≤ (n : Int)) (hp : (p : Int) ∣ stride)
    (hs : s.natAbs < n) :
    ((shiftIdx n s stride r : Nat) : Int) % (p : Int) = ((r : Int) - s) % (p : Int) := by
  have hL : min stride.toNat n = stride.toNat := by omega
  have hpL : (p : Int) ∣ ((stride.toNat : Nat) : Int) := by
    rwa [Int.toNat_of_nonneg (le_of_lt hst)]
  have hpT : (p : Int) ∣ (((pyQuot s stride).toNat * stride.toNat : Nat) : Int) := by
    rw [Nat.cast_mul]; exact Dvd.dvd.mul_left hpL _
  simp only [shiftIdx, hL]
  split_ifs with h1 h2 h3 h4
  · -- 0 < s, r in the padding: trailing crop of the tiling
    have h0 := natAbs_le_quot_mul_min s stride n hst hs
    rw [hL] at h0
    have hST : s.toNat ≤ (pyQuot s stride).toNat * stride.toNat := by omega
    rw [Int.natCast_mod, Int.emod_emod_of_dvd _ hpL]
    have hs' : ((s.toNat : Nat) : Int) = s := Int.toNat_of_nonneg (by omega)
    have hd : ((r : Int) - s)
        - (((pyQuot s stride).toNat * stride.toNat - s.toNat + r : Nat) : Int)
        = -(((pyQuot s stride).toNat * stride.toNat : Nat) : Int) := by
      push_cast [Nat.cast_sub hST]
      omega
    exact Int.modEq_iff_dvd.mpr (hd ▸ (dvd_neg.mpr hpT))
  · -- 0 < s, surviving rows
    have he : ((r - s.toNat : Nat) : Int) = (r : Int) - s := by
      have hs' : ((s.toNat : Nat) : Int) = s := Int.toNat_of_nonneg (by omega)
      push_cast [Nat.cast_sub (le_of_not_lt h2)]
      omega
    rw [he]
  · -- s < 0, surviving rows
    have he : ((r + s.natAbs : Nat) : Int) = (r : Int) - s := by omega
    rw [he]
  · -- s < 0, padding: leading crop of the tiling of the trailing block
    rw [Nat.cast_add, Int.add_emod, Int.natCast_mod, Int.emod_emod_of_dvd _ hpL,
      ← Int.add_emod]
    have hd : ((r : Int) - s) - (((n - stride.toNat : Nat) : Int) + ((r - (n - s.natAbs) : Nat) : Int))
        = ((stride.toNat : Nat) : Int) := by
      push_cast [Nat.cast_sub (show stride.toNat ≤ n by omega),
        Nat.cast_sub (le_of_not_lt h4)]
      omega
    exact Int.modEq_iff_dvd.mpr (hd ▸ hpL)
  · -- s = 0
    have he : ((r : Int) - s) = (r : Int) := by omega
    rw [he]

/-- The index produced by a border pass stays inside the source axis. -/
theorem borderIdx_lt (n b st r : Nat) (h1 : 1 ≤ st) (h2 : st ≤ n) :
    borderIdx n b st r < n := by
  simp only [borderIdx]
  have hm1 := Nat.mod_lt r (show 0 < st by omega)
  have hm2 := Nat.mod_lt (r - (b + n)) (show 0 < st by omega)
  split_ifs <;> omega

/-- The index map of `add_border_2d` is congruent to `r - b` modulo any
divisor `p` of the stride, on rows at or below the top border (and everywhere
when `p` also divides the border width). -/
theorem borderIdx_emod (n b st p r : Nat) (hst : 1 ≤ st) (hp : p ∣ st) (hsn : st ≤ n)
    (hextra : b ≤ r ∨ p ∣ b) :
    ((borderIdx n b st r : Nat) : Int) % (p : Int) = ((r : Int) - (b : Int)) % (p : Int) := by
  have hpL : (p : Int) ∣ ((st : Nat) : Int) := Int.natCast_dvd_natCast.mpr hp
  simp only [borderIdx]
  split_ifs with h1 h2
  · -- top border: only possible under p ∣ b
    have hpb : (p : Int) ∣ ((b : Nat) : Int) := by
      rcases hextra with h | h
      · omega
      · exact Int.natCast_dvd_natCast.mpr h
    rw [Int.natCast_mod, Int.emod_emod_of_dvd _ hpL]
    have hd : ((r : Int) - b) - (r : Int) = -((b : Nat) : Int) := by omega
    exact Int.modEq_iff_dvd.mpr (hd ▸ (dvd_neg.mpr hpb))
  · -- interior
    have he : ((r - b : Nat) : Int) = (r : Int) - b := by
      push_cast [Nat.cast_sub (le_of_not_lt h1)]
      omega
    rw [he]
  · -- bottom border
    rw [Nat.cast_add, Int.add_emod, Int.natCast_mod, Int.emod_emod_of_dvd _ hpL,
      ← Int.add_emod]
    have hd : ((r : Int) - b) - (((n - st : Nat) : Int) + ((r - (b + n) : Nat) : Int))
        = ((st : Nat) : Int) := by
      push_cast [Nat.cast_sub hsn, Nat.cast_sub (le_of_not_lt h2)]
      omega
    exact Int.modEq_iff_dvd.mpr (hd ▸ hpL)
/-! ### Value conservation: the transforms only move and replicate entries -/

theorem errBind (e : String) (f : Grid → Except String Grid) :
    (Except.error e >>= f) = Except.error e := rfl

theorem conserves_self (g : Grid) : Conserves g g :=
  fun i hi j hj => Or.inr ⟨i, hi, j, hj, rfl⟩

theorem conserves_trans {a b c : Grid} (h1 : Conserves a b) (h2 : Conserves b c) :
    Conserves a c := by
  intro i hi j hj
  rcases h2 i hi j hj with h | ⟨x, hx, y, hy, he⟩
  · exact Or.inl h
  · rw [he]
    exact h1 x hx y hy

theorem conserves_zeros (src : Grid) (r c : Nat) : Conserves src (zeros r c) :=
  fun i _ j _ => Or.inl rfl

theorem conserves_zeros_like (src g : Grid) : Conserves src (zeros_like g) :=
  fun i _ j _ => Or.inl rfl

theorem conserves_sliceRows (src g : Grid) (h : Conserves src g) (a b : Int) :
    Conserves src (sliceRows g a b) := by
  intro i hi j hj
  have h1 := pyIdx_le g.rows b
  simp only [sliceRows_rows] at hi
  simp only [sliceRows_cols] at hj
  exact h (pyIdx g.rows a + i) (by omega) j hj

theorem conserves_sliceCols (src g : Grid) (h : Conserves src g) (a b : Int) :
    Conserves src (sliceCols g a b) := by
  intro i hi j hj
  have h1 := pyIdx_le g.cols b
  simp only [sliceCols_rows] at hi
  simp only [sliceCols_cols] at hj
  exact h i hi (pyIdx g.cols a + j) (by omega)

theorem conserves_tileV (src g : Grid) (h : Conserves src g) (q : Nat) :
    Conserves src (tileV g q) := by
  intro i hi j hj
  simp only [tileV_rows] at hi
  simp only [tileV_cols] at hj
  rcases Nat.eq_zero_or_pos g.rows with h0 | h0
  · rw [h0, Nat.mul_zero] at hi; omega
  · exact h (i % g.rows) (Nat.mod_lt _ h0) j hj

theorem conserves_tileH (src g : Grid) (h : Conserves src g) (q : Nat) :
    Conserves src (tileH g q) := by
  intro i hi j hj
  simp only [tileH_rows] at hi
  simp only [tileH_cols] at hj
  rcases Nat.eq_zero_or_pos g.cols with h0 | h0
  · rw [h0, Nat.mul_zero] at hj; omega
  · exact h i hi (j % g.cols) (Nat.mod_lt _ h0)

theorem conserves_vstack (src a b : Grid) (hc : b.cols = a.cols)
    (h1 : Conserves src a) (h2 : Conserves src b) : Conserves src (vstack a b) := by
  intro i hi j hj
  simp only [vstack_rows] at hi
  simp only [vstack_cols] at hj
  by_cases hlt : i < a.rows
  · have e : (vstack a b).data i j = a.data i j := by rw [vstack_data, if_pos hlt]
    rw [e]
    exact h1 i hlt j hj
  · have e : (vstack a b).data i j = b.data (i - a.rows) j := by rw [vstack_data, if_neg hlt]
    rw [e]
    exact h2 (i - a.rows) (by omega) j (by omega)

theorem conserves_hstack (src a b : Grid) (hr : b.rows = a.rows)
    (h1 : Conserves src a) (h2 : Conserves src b) : Conserves src (hstack a b) := by
  intro i hi j hj
  simp only [hstack_rows] at hi
  simp only [hstack_cols] at hj
  by_cases hlt : j < a.cols
  · have e : (hstack a b).data i j = a.data i j := by rw [hstack_data, if_pos hlt]
    rw [e]
    exact h1 i hi j hlt
  · have e : (hstack a b).data i j = b.data i (j - a.cols) := by rw [hstack_data, if_neg hlt]
    rw [e]
    exact h2 i (by omega) (j - a.cols) (by omega)

theorem conserves_setRegion (src g s' G : Grid) (r0 r1 c0 c1 : Int)
    (h : setRegion g r0 r1 c0 c1 s' = .ok G) (h1 : Conserves src g)
    (h2 : Conserves src s') : Conserves src G := by
  simp only [setRegion] at h
  split at h
  · rename_i hcond
    obtain ⟨hrr, hcc⟩ := hcond
    injection h with h
    subst h
    intro i hi j hj
    by_cases hreg : pyIdx g.rows r0 ≤ i ∧ i < pyIdx g.rows r1 ∧
        pyIdx g.cols c0 ≤ j ∧ j < pyIdx g.cols c1
    · have e : (if pyIdx g.rows r0 ≤ i ∧ i < pyIdx g.rows r1 ∧
          pyIdx g.cols c0 ≤ j ∧ j < pyIdx g.cols c1
          then s'.data (i - pyIdx g.rows r0) (j - pyIdx g.cols c0) else g.data i j)
          = s'.data (i - pyIdx g.rows r0) (j - pyIdx g.cols c0) := if_pos hreg
      refine (e ▸ h2 (i - pyIdx g.rows r0) (by omega) (j - pyIdx g.cols c0) (by omega) : _)
    · have e : (if pyIdx g.rows r0 ≤ i ∧ i < pyIdx g.rows r1 ∧
          pyIdx g.cols c0 ≤ j ∧ j < pyIdx g.cols c1
          then s'.data (i - pyIdx g.rows r0) (j - pyIdx g.cols c0) else g.data i j)
          = g.data i j := if_neg hreg
      refine (e ▸ h1 i hi j hj : _)
  · exact Except.noConfusion h

theorem rowPass_conserves (arr : Grid) (s stride : Int) (R : Grid)
    (h : rowPass arr s stride = .ok R) : Conserves arr R := by
  simp only [rowPass] at h
  split_ifs at h
  · -- s > 0, stride > 0
    injection h with h
    subst h
    exact conserves_vstack _ _ _ rfl
      (conserves_sliceRows _ _ (conserves_tileV _ _
        (conserves_sliceRows _ _ (conserves_self arr) _ _) _) _ _)
      (conserves_sliceRows _ _ (conserves_self arr) _ _)
  · -- s > 0, stride <= 0
    exact conserves_setRegion _ _ _ _ _ _ _ _ h (conserves_zeros_like _ _)
      (conserves_sliceRows _ _ (conserves_self arr) _ _)
  · -- s < 0, stride > 0
    injection h with h
    subst h
    exact conserves_vstack _ _ _ rfl
      (conserves_sliceRows _ _ (conserves_self arr) _ _)
      (conserves_sliceRows _ _ (conserves_tileV _ _
        (conserves_sliceRows _ _ (conserves_self arr) _ _) _) _ _)
  · -- s < 0, stride <= 0
    exact conserves_setRegion _ _ _ _ _ _ _ _ h (conserves_zeros_like _ _)
      (conserves_sliceRows _ _ (conserves_self arr) _ _)
  · -- s = 0
    exact conserves_setRegion _ _ _ _ _ _ _ _ h (conserves_zeros_like _ _)
      (conserves_self arr)

theorem colPass_conserves (arr row_arr : Grid) (s stride : Int) (N : Grid)
    (h : colPass arr row_arr s stride = .ok N) : Conserves row_arr N := by
  simp only [colPass] at h
  split_ifs at h
  · injection h with h
    subst h
    exact conserves_hstack _ _ _ rfl
      (conserves_sliceCols _ _ (conserves_tileH _ _
        (conserves_sliceCols _ _ (conserves_self row_arr) _ _) _) _ _)
      (conserves_sliceCols _ _ (conserves_self row_arr) _ _)
  · exact conserves_setRegion _ _ _ _ _ _ _ _ h (conserves_zeros_like _ _)
      (conserves_sliceCols _ _ (conserves_self row_arr) _ _)
  · injection h with h
    subst h
    exact conserves_hstack _ _ _ rfl
      (conserves_sliceCols _ _ (conserves_self row_arr) _ _)
      (conserves_sliceCols _ _ (conserves_tileH _ _
        (conserves_sliceCols _ _ (conserves_self row_arr) _ _) _) _ _)
  · exact conserves_setRegion _ _ _ _ _ _ _ _ h (conserves_zeros_like _ _)
      (conserves_sliceCols _ _ (conserves_self row_arr) _ _)
  · exact conserves_setRegion _ _ _ _ _ _ _ _ h (conserves_zeros_like _ _)
      (conserves_self row_arr)

theorem shift_2d_conserves (arr : Grid) (sh : Int × Int) (stride : Int) (out : Grid)
    (h : shift_2d arr sh stride = .ok out) : Conserves arr out := by
  obtain ⟨sr, sc⟩ := sh
  simp only [shift_2d] at h
  cases hR : rowPass arr sr stride with
  | error e =>
    rw [hR, errBind] at h
    exact Except.noConfusion h
  | ok R =>
    rw [hR, okBind] at h
    exact conserves_trans (rowPass_conserves arr sr stride R hR)
      (colPass_conserves arr R sc stride out h)

theorem add_border_2d_conserves (arr : Grid) (b : Nat) (stride : Int) (out : Grid)
    (h : add_border_2d arr b stride = .ok out) : Conserves arr out := by
  simp only [add_border_2d] at h
  cases h1 : setRegion (zeros (arr.rows + b * 2) (arr.cols + b * 2)) (b : Int) (-(b : Int))
      (b : Int) (-(b : Int)) arr with
  | error e =>
    rw [h1, errBind] at h
    exact Except.noConfusion h
  | ok G1 =>
    rw [h1, okBind] at h
    have hc1 : Conserves arr G1 :=
      conserves_setRegion _ _ _ _ _ _ _ _ h1 (conserves_zeros _ _ _) (conserves_self arr)
    split_ifs at h
    · -- stride > 0 : the four border fills
      cases h2 : setRegion G1 0 (b : Int) 0 (G1.cols : Int)
          (sliceRows (tileV (sliceRows G1 (b : Int) ((b : Int) + stride))
            (pyQuot (b : Int) stride).toNat) 0 (b : Int)) with
      | error e =>
        rw [h2, errBind] at h
        exact Except.noConfusion h
      | ok G2 =>
        rw [h2, okBind] at h
        have hc2 : Conserves arr G2 :=
          conserves_setRegion _ _ _ _ _ _ _ _ h2 hc1
            (conserves_sliceRows _ _ (conserves_tileV _ _
              (conserves_sliceRows _ _ hc1 _ _) _) _ _)
        cases h3 : setRegion G2 (-(b : Int)) (G2.rows : Int) 0 (G2.cols : Int)
            (sliceRows (tileV (sliceRows G2 (-((b : Int) + stride)) (-(b : Int)))
              (pyQuot (b : Int) stride).toNat) 0 (b : Int)) with
        | error e =>
          rw [h3, errBind] at h
          exact Except.noConfusion h
        | ok G3 =>
          rw [h3, okBind] at h
          have hc3 : Conserves arr G3 :=
            conserves_setRegion _ _ _ _ _ _ _ _ h3 hc2
              (conserves_sliceRows _ _ (conserves_tileV _ _
                (conserves_sliceRows _ _ hc2 _ _) _) _ _)
          cases h4 : setRegion G3 0 (G3.rows : Int) 0 (b : Int)
              (sliceCols (tileH (sliceCols G3 (b : Int) ((b : Int) + stride))
                (pyQuot (b : Int) stride).toNat) 0 (b : Int)) with
          | error e =>
            rw [h4, errBind] at h
            exact Except.noConfusion h
          | ok G4 =>
            rw [h4, okBind] at h
            have hc4 : Conserves arr G4 :=
              conserves_setRegion _ _ _ _ _ _ _ _ h4 hc3
                (conserves_sliceCols _ _ (conserves_tileH _ _
                  (conserves_sliceCols _ _ hc3 _ _) _) _ _)
            have hc5 : Conserves arr out :=
              conserves_setRegion _ _ _ _ _ _ _ _ h hc4
                (conserves_sliceCols _ _ (conserves_tileH _ _
                  (conserves_sliceCols _ _ hc4 _ _) _) _ _)
            exact hc5
    · -- stride <= 0 : no fill
      injection h with h
      subst h
      exact hc1
/-! ### Claim theorems -/

theorem isOkAnd_intro {e : Except String Grid} {P : Grid → Prop} {g : Grid}
    (h : e = .ok g) (hp : P g) : isOkAnd e P := by
  rw [h]; exact hp

/-- Claim C6: for every grid (with positive dimensions) and every stride,
`shift_2d(g, (0, 0), stride)` returns a grid equal to `g`. -/
theorem c6_shift_zero_identity (arr : Grid) (stride : Int)
    (h1 : 0 < arr.rows) (h2 : 0 < arr.cols) :
    isOkAnd (shift_2d arr (0, 0) stride) (fun g => g.Equiv arr) := by
  by_cases hst : 0 < stride
  · obtain ⟨out, ho, hr, hc, hd⟩ := shift_pos_char arr 0 0 stride hst (by omega) (by omega)
    refine isOkAnd_intro ho ⟨hr, hc, ?_⟩
    intro i hi j hj
    rw [hr] at hi
    rw [hc] at hj
    rw [hd i j hi hj]
    have e1 : shiftIdx arr.rows 0 stride i = i := by
      simp only [shiftIdx]; split_ifs <;> omega
    have e2 : shiftIdx arr.cols 0 stride j = j := by
      simp only [shiftIdx]; split_ifs <;> omega
    rw [e1, e2]
  · obtain ⟨out, ho, hr, hc, hd⟩ := shift_zero_char arr 0 0 stride (by omega)
      (by omega) (by omega)
    refine isOkAnd_intro ho ⟨hr, hc, ?_⟩
    intro i hi j hj
    rw [hr] at hi
    rw [hc] at hj
    rw [hd i j hi hj, if_pos (by omega)]
    exact dataCongr arr (by omega) (by omega)

/-- Claim C8: for every grid, every in-range shift and every stride,
`shift_2d` returns a grid of exactly the input dimensions. -/
theorem c8_shift_size_preserved (arr : Grid) (sr sc stride : Int)
    (h1 : sr.natAbs < arr.rows) (h2 : sc.natAbs < arr.cols) :
    isOkAnd (shift_2d arr (sr, sc) stride)
      (fun g => g.rows = arr.rows ∧ g.cols = arr.cols) := by
  by_cases hst : 0 < stride
  · obtain ⟨out, ho, hr, hc, _⟩ := shift_pos_char arr sr sc stride hst h1 h2
    exact isOkAnd_intro ho ⟨hr, hc⟩
  · obtain ⟨out, ho, hr, hc, _⟩ := shift_zero_char arr sr sc stride (by omega) h1 h2
    exact isOkAnd_intro ho ⟨hr, hc⟩

/-- Witness for C8 at a concrete input. -/
theorem c8_shift_size_preserved_witness :
    ((2 : Int).natAbs < grid6.rows ∧ (3 : Int).natAbs < grid6.cols) ∧
    isOkAnd (shift_2d grid6 (2, 3) 2) (fun g => g.rows = grid6.rows ∧ g.cols = grid6.cols) :=
  ⟨by decide, c8_shift_size_preserved grid6 2 3 2 (by decide) (by decide)⟩

/-- Claim C1 (amended): for every grid with positive dimensions, every
`border_width >= 1` and every valid stride, `add_border_2d` returns a grid of
dimensions `(rows+2b) × (cols+2b)` whose centred region equals the input.  The
case `b = 0`, included by the original claim, instead raises a broadcast error
(see the counterexample). -/
theorem c1_border_dims_center (arr : Grid) (b : Nat) (stride : Int)
    (hb : 1 ≤ b) (hs0 : 0 ≤ stride) (hsr : stride ≤ (arr.rows : Int))
    (hsc : stride ≤ (arr.cols : Int)) :
    isOkAnd (add_border_2d arr b stride) (fun g =>
      g.rows = arr.rows + 2 * b ∧ g.cols = arr.cols + 2 * b ∧
      ∀ i < arr.rows, ∀ j < arr.cols, g.data (b + i) (b + j) = arr.data i j) := by
  by_cases hst : 0 < stride
  · obtain ⟨out, ho, hr, hc, hd⟩ := add_border_pos_char arr b stride hst hb hsr hsc
    refine isOkAnd_intro ho ⟨by omega, by omega, ?_⟩
    intro i hi j hj
    rw [hd (b + i) (b + j) (by omega) (by omega)]
    have e1 : borderIdx arr.rows b stride.toNat (b + i) = i := by
      simp only [borderIdx]; split_ifs <;> omega
    have e2 : borderIdx arr.cols b stride.toNat (b + j) = j := by
      simp only [borderIdx]; split_ifs <;> omega
    rw [e1, e2]
  · obtain ⟨out, ho, hr, hc, hd⟩ := add_border_zero_char arr b stride (by omega) hb
    refine isOkAnd_intro ho ⟨by omega, by omega, ?_⟩
    intro i hi j hj
    rw [hd (b + i) (b + j), if_pos (by omega)]
    exact dataCongr arr (by omega) (by omega)

/-- Witness for the amended C1 at a concrete input. -/
theorem c1_border_dims_center_witness :
    (1 ≤ 1 ∧ (0 : Int) ≤ 1 ∧ (1 : Int) ≤ (grid22.rows : Int) ∧
      (1 : Int) ≤ (grid22.cols : Int)) ∧
    isOkAnd (add_border_2d grid22 1 1) (fun g =>
      g.rows = grid22.rows + 2 * 1 ∧ g.cols = grid22.cols + 2 * 1 ∧
      ∀ i < grid22.rows, ∀ j < grid22.cols, g.data (1 + i) (1 + j) = grid22.data i j) :=
  ⟨by decide, c1_border_dims_center grid22 1 1 (by decide) (by decide) (by decide) (by decide)⟩

/-- Counterexample to C1 as stated: at `border_width = 0` the slice
`new_arr[0:-0, 0:-0]` is empty, so the centre assignment raises a numpy
broadcast error instead of returning a copy of the grid. -/
theorem c1_border_zero_width_fails : raisesErr (add_border_2d grid22 0 1) := by decide

/-- Claim C7 (amended): with `stride = 0`, the `shift_2d` output is the
translated input with the vacated band exactly zero, and — for
`border_width >= 1` — the `add_border_2d` output has all four border regions
exactly zero around the copied centre.  At `border_width = 0` the original
claim fails: the code raises instead of returning an output (see the
counterexample). -/
theorem c7_zero_fill_amended (arr : Grid) :
    (∀ sr sc : Int, sr.natAbs < arr.rows → sc.natAbs < arr.cols →
      isOkAnd (shift_2d arr (sr, sc) 0) (fun g =>
        g.rows = arr.rows ∧ g.cols = arr.cols ∧
        ∀ r c, r < arr.rows → c < arr.cols →
          g.data r c = if sr ≤ (r : Int) ∧ (r : Int) - sr < arr.rows ∧
              sc ≤ (c : Int) ∧ (c : Int) - sc < arr.cols
            then arr.data ((r : Int) - sr).toNat ((c : Int) - sc).toNat else 0)) ∧
    (∀ b : Nat, 1 ≤ b →
      isOkAnd (add_border_2d arr b 0) (fun g =>
        g.rows = arr.rows + 2 * b ∧ g.cols = arr.cols + 2 * b ∧
        ∀ r c, g.data r c = if b ≤ r ∧ r < b + arr.rows ∧ b ≤ c ∧ c < b + arr.cols
          then arr.data (r - b) (c - b) else 0)) := by
  constructor
  · intro sr sc h1 h2
    obtain ⟨out, ho, hr, hc, hd⟩ := shift_zero_char arr sr sc 0 (by omega) h1 h2
    exact isOkAnd_intro ho ⟨hr, hc, hd⟩
  · intro b hb
    obtain ⟨out, ho, hr, hc, hd⟩ := add_border_zero_char arr b 0 (by omega) hb
    exact isOkAnd_intro ho ⟨by omega, by omega, hd⟩

/-- Witness for the amended C7 at a concrete input. -/
theorem c7_zero_fill_amended_witness :
    ((2 : Int).natAbs < grid6.rows ∧ (-1 : Int).natAbs < grid6.cols ∧ 1 ≤ 2) ∧
    isOkAnd (shift_2d grid6 (2, -1) 0) (fun g =>
      g.rows = grid6.rows ∧ g.cols = grid6.cols ∧
      ∀ r c, r < grid6.rows → c < grid6.cols →
        g.data r c = if (2 : Int) ≤ (r : Int) ∧ (r : Int) - 2 < grid6.rows ∧
            (-1 : Int) ≤ (c : Int) ∧ (c : Int) - (-1) < grid6.cols
          then grid6.data ((r : Int) - 2).toNat ((c : Int) - (-1)).toNat else 0) ∧
    isOkAnd (add_border_2d grid6 2 0) (fun g =>
      g.rows = grid6.rows + 2 * 2 ∧ g.cols = grid6.cols + 2 * 2 ∧
      ∀ r c, g.data r c = if 2 ≤ r ∧ r < 2 + grid6.rows ∧ 2 ≤ c ∧ c < 2 + grid6.cols
        then grid6.data (r - 2) (c - 2) else 0) :=
  ⟨by decide, (c7_zero_fill_amended grid6).1 2 (-1) (by decide) (by decide),
    (c7_zero_fill_amended grid6).2 2 (by decide)⟩

/-- Counterexample to C7 as stated: at `border_width = 0` (allowed by "for
every border_width") the code raises a broadcast error, so there is no output
whose border regions could be zero. -/
theorem c7_border_zero_width_no_output : raisesErr (add_border_2d grid22 0 0) := by decide
/-- Claim C3 (amended): for a grid whose rows repeat with period `p` and a
valid stride that is a positive multiple of `p`, the `shift_2d` output
continues the row pattern with period `p` everywhere (padding included), and
the `add_border_2d` output continues it unbroken at and below the top edge of
the interior (in particular across the bottom border); the top border also
continues it only when `p` divides `border_width` — the original claim's
"all four border regions, for any border_width" fails (see counterexample). -/
theorem c3_periodicity_amended (arr : Grid) (p : Nat) (stride : Int)
    (hp0 : 0 < p) (hdvd : (p : Int) ∣ stride) (hst : 0 < stride)
    (hsr : stride ≤ (arr.rows : Int)) (hsc : stride ≤ (arr.cols : Int))
    (hP : RowPeriodic arr p) :
    (∀ sr sc : Int, sr.natAbs < arr.rows → sc.natAbs < arr.cols →
      isOkAnd (shift_2d arr (sr, sc) stride) (fun g => RowPeriodic g p)) ∧
    (∀ b : Nat, 1 ≤ b →
      isOkAnd (add_border_2d arr b stride) (fun g =>
        (∀ i j, b ≤ i → i + p < g.rows → j < g.cols → g.data i j = g.data (i + p) j) ∧
        (p ∣ b → RowPeriodic g p))) := by
  have hpn : p ∣ stride.toNat := by
    have h := hdvd
    rw [← Int.toNat_of_nonneg (le_of_lt hst)] at h
    exact_mod_cast h
  constructor
  · intro sr sc h1 h2
    obtain ⟨out, ho, hr, hc, hd⟩ := shift_pos_char arr sr sc stride hst h1 h2
    refine isOkAnd_intro ho ?_
    intro i hi j hj
    rw [hr] at hi
    rw [hc] at hj
    rw [hd i j (by omega) hj, hd (i + p) j (by omega) hj]
    apply periodic_congr arr p hP hp0 (shiftIdx_lt _ _ _ _ hst h1 (by omega))
      (shiftIdx_lt _ _ _ _ hst h1 (by omega)) (shiftIdx_lt _ _ _ _ hst h2 hj)
    apply natMod_of_intMod
    rw [shiftIdx_emod arr.rows sr stride p i hst hsr hdvd h1,
      shiftIdx_emod arr.rows sr stride p (i + p) hst hsr hdvd h1]
    have e3 : (((i + p : Nat) : Int) - sr) = ((i : Int) - sr) + (p : Int) * 1 := by
      push_cast; ring
    rw [e3, Int.add_mul_emod_self_left]
  · intro b hb
    obtain ⟨out, ho, hr, hc, hd⟩ := add_border_pos_char arr b stride hst hb hsr hsc
    refine isOkAnd_intro ho ⟨?_, ?_⟩
    · intro i j hbi hip hj
      rw [hr] at hip
      rw [hc] at hj
      rw [hd i j (by omega) hj, hd (i + p) j (by omega) hj]
      apply periodic_congr arr p hP hp0
        (borderIdx_lt _ _ _ _ (by omega) (by omega))
        (borderIdx_lt _ _ _ _ (by omega) (by omega))
        (borderIdx_lt _ _ _ _ (by omega) (by omega))
      apply natMod_of_intMod
      rw [borderIdx_emod arr.rows b stride.toNat p i (by omega) hpn (by omega)
          (Or.inl hbi),
        borderIdx_emod arr.rows b stride.toNat p (i + p) (by omega) hpn (by omega)
          (Or.inl (by omega))]
      have e3 : (((i + p : Nat) : Int) - (b : Int)) = ((i : Int) - b) + (p : Int) * 1 := by
        push_cast; ring
      rw [e3, Int.add_mul_emod_self_left]
    · intro hpb i hi j hj
      rw [hr] at hi
      rw [hc] at hj
      rw [hd i j (by omega) hj, hd (i + p) j (by omega) hj]
      apply periodic_congr arr p hP hp0
        (borderIdx_lt _ _ _ _ (by omega) (by omega))
        (borderIdx_lt _ _ _ _ (by omega) (by omega))
        (borderIdx_lt _ _ _ _ (by omega) (by omega))
      apply natMod_of_intMod
      rw [borderIdx_emod arr.rows b stride.toNat p i (by omega) hpn (by omega)
          (Or.inr hpb),
        borderIdx_emod arr.rows b stride.toNat p (i + p) (by omega) hpn (by omega)
          (Or.inr hpb)]
      have e3 : (((i + p : Nat) : Int) - (b : Int)) = ((i : Int) - b) + (p : Int) * 1 := by
        push_cast; ring
      rw [e3, Int.add_mul_emod_self_left]

/-- Witness for the amended C3 at a concrete input: a 2-row-periodic 4×2 grid,
stride 2, shift (1, 1) and border width 2. -/
theorem c3_periodicity_amended_witness :
    (RowPeriodic grid42 2 ∧ (1 : Int).natAbs < grid42.rows ∧
      (1 : Int).natAbs < grid42.cols) ∧
    isOkAnd (shift_2d grid42 (1, 1) 2) (fun g => RowPeriodic g 2) ∧
    isOkAnd (add_border_2d grid42 2 2) (fun g =>
      (∀ i j, 2 ≤ i → i + 2 < g.rows → j < g.cols → g.data i j = g.data (i + 2) j) ∧
      (2 ∣ 2 → RowPeriodic g 2)) :=
  ⟨by decide,
    (c3_periodicity_amended grid42 2 2 (by decide) ⟨1, by norm_num⟩ (by decide)
      (by decide) (by decide) (by decide)).1 1 1 (by decide) (by decide),
    (c3_periodicity_amended grid42 2 2 (by decide) ⟨1, by norm_num⟩ (by decide)
      (by decide) (by decide) (by decide)).2 2 (by decide)⟩

/-- Counterexample to C3 as stated: `grid42` is 2-row-periodic and stride 2 is
a valid positive multiple of the period, yet with `border_width = 1` the top
border of `add_border_2d` does NOT continue the pattern: the output rows 0 and
2 differ (0 vs 10), so the pattern breaks across the top boundary. -/
theorem c3_top_border_breaks_period :
    RowPeriodic grid42 2 ∧
    isOkAnd (add_border_2d grid42 1 2) (fun g => g.data 0 1 = 0 ∧ g.data 2 1 = 10) := by
  constructor <;> decide

/-- Claim C4 (amended): with `stride > 0` (valid for both axes) and
`border_width >= 1`, each border region of `add_border_2d` is the LEADING
`[:border_width]` crop of the tiled edge block — for all four edges, not just
top/left.  The original claim's trailing crop for bottom/right fails (see
counterexample). -/
theorem c4_leading_crop_all_edges (arr : Grid) (b : Nat) (stride : Int)
    (hb : 1 ≤ b) (hst : 0 < stride) (hsr : stride ≤ (arr.rows : Int))
    (hsc : stride ≤ (arr.cols : Int)) :
    isOkAnd (add_border_2d arr b stride) (fun g =>
      (∀ r < b, ∀ j < arr.cols, g.data r (b + j)
        = (sliceRows (tileV (sliceRows arr 0 stride) (pyQuot (b : Int) stride).toNat)
            0 (b : Int)).data r j) ∧
      (∀ k < b, ∀ j < arr.cols, g.data (b + arr.rows + k) (b + j)
        = (sliceRows (tileV (sliceRows arr (-stride) (arr.rows : Int))
            (pyQuot (b : Int) stride).toNat) 0 (b : Int)).data k j) ∧
      (∀ i < arr.rows, ∀ k < b, g.data (b + i) k
        = (sliceCols (tileH (sliceCols arr 0 stride) (pyQuot (b : Int) stride).toNat)
            0 (b : Int)).data i k) ∧
      (∀ i < arr.rows, ∀ k < b, g.data (b + i) (b + arr.cols + k)
        = (sliceCols (tileH (sliceCols arr (-stride) (arr.cols : Int))
            (pyQuot (b : Int) stride).toNat) 0 (b : Int)).data i k)) := by
  obtain ⟨out, ho, hr, hc, hd⟩ := add_border_pos_char arr b stride hst hb hsr hsc
  have hA3r : pyIdx arr.rows stride = min stride.toNat arr.rows := pyIdx_pos _ _ (by omega)
  have hA3c : pyIdx arr.cols stride = min stride.toNat arr.cols := pyIdx_pos _ _ (by omega)
  have hminr : min stride.toNat arr.rows = stride.toNat := by omega
  have hminc : min stride.toNat arr.cols = stride.toNat := by omega
  have hAnr : pyIdx arr.rows (-stride) = arr.rows - stride.toNat := by
    rw [pyIdx_neg _ _ (by omega : -stride < 0)]; omega
  have hAnc : pyIdx arr.cols (-stride) = arr.cols - stride.toNat := by
    rw [pyIdx_neg _ _ (by omega : -stride < 0)]; omega
  have hsubr : arr.rows - (arr.rows - stride.toNat) = stride.toNat := by omega
  have hsubc : arr.cols - (arr.cols - stride.toNat) = stride.toNat := by omega
  refine isOkAnd_intro ho ⟨?_, ?_, ?_, ?_⟩
  · -- top
    intro r hrb j hj
    rw [hd r (b + j) (by omega) (by omega)]
    simp only [sliceRows_data, tileV_data, sliceRows_rows, pyIdx_zero, Nat.zero_add,
      Nat.sub_zero, hA3r, hminr]
    simp only [borderIdx]
    split_ifs <;>
      first | omega | (apply dataCongr <;> first | omega | (apply modCongr <;> omega))
  · -- bottom
    intro k hkb j hj
    rw [hd (b + arr.rows + k) (b + j) (by omega) (by omega)]
    simp only [sliceRows_data, tileV_data, sliceRows_rows, pyIdx_self, pyIdx_zero,
      Nat.zero_add, hAnr, hsubr]
    simp only [borderIdx]
    split_ifs <;>
      first | omega |
        (apply dataCongr <;>
          first | omega | (apply modCongr <;> omega) | (apply addModCongr <;> omega))
  · -- left
    intro i hi k hkb
    rw [hd (b + i) k (by omega) (by omega)]
    simp only [sliceCols_data, tileH_data, sliceCols_cols, pyIdx_zero, Nat.zero_add,
      Nat.sub_zero, hA3c, hminc]
    simp only [borderIdx]
    split_ifs <;>
      first | omega | (apply dataCongr <;> first | omega | (apply modCongr <;> omega))
  · -- right
    intro i hi k hkb
    rw [hd (b + i) (b + arr.cols + k) (by omega) (by omega)]
    simp only [sliceCols_data, tileH_data, sliceCols_cols, pyIdx_self, pyIdx_zero,
      Nat.zero_add, hAnc, hsubc]
    simp only [borderIdx]
    split_ifs <;>
      first | omega |
        (apply dataCongr <;>
          first | omega | (apply modCongr <;> omega) | (apply addModCongr <;> omega))

/-- Witness for the amended C4 at a concrete input. -/
theorem c4_leading_crop_all_edges_witness :
    (1 ≤ 3 ∧ (0 : Int) < 2 ∧ (2 : Int) ≤ (grid42.rows : Int) ∧
      (2 : Int) ≤ (grid42.cols : Int)) ∧
    isOkAnd (add_border_2d grid42 3 2) (fun g =>
      (∀ r < 3, ∀ j < grid42.cols, g.data r (3 + j)
        = (sliceRows (tileV (sliceRows grid42 0 2) (pyQuot (3 : Int) 2).toNat)
            0 (3 : Int)).data r j) ∧
      (∀ k < 3, ∀ j < grid42.cols, g.data (3 + grid42.rows + k) (3 + j)
        = (sliceRows (tileV (sliceRows grid42 (-2) (grid42.rows : Int))
            (pyQuot (3 : Int) 2).toNat) 0 (3 : Int)).data k j) ∧
      (∀ i < grid42.rows, ∀ k < 3, g.data (3 + i) k
        = (sliceCols (tileH (sliceCols grid42 0 2) (pyQuot (3 : Int) 2).toNat)
            0 (3 : Int)).data i k) ∧
      (∀ i < grid42.rows, ∀ k < 3, g.data (3 + i) (3 + grid42.cols + k)
        = (sliceCols (tileH (sliceCols grid42 (-2) (grid42.cols : Int))
            (pyQuot (3 : Int) 2).toNat) 0 (3 : Int)).data i k)) :=
  ⟨by decide,
    c4_leading_crop_all_edges grid42 3 2 (by decide) (by decide) (by decide) (by decide)⟩

/-- Counterexample to C4 as stated: the bottom border of
`add_border_2d(grid42, 3, 2)` starts with the LEADING crop value 0 (row 2 of
the grid), not the trailing crop of the tiled bottom block, whose first row
would be 10 (row 3 of the grid). -/
theorem c4_bottom_crop_not_trailing :
    isOkAnd (add_border_2d grid42 3 2) (fun g =>
      g.data 7 3 = 0 ∧
      ¬ g.data 7 3 = (cropTrailing (tileV (sliceRows grid42 (-2) (grid42.rows : Int))
        (pyQuot (3 : Int) 2).toNat) 3).data 0 0) ∧
    (cropTrailing (tileV (sliceRows grid42 (-2) (grid42.rows : Int))
      (pyQuot (3 : Int) 2).toNat) 3).data 0 0 = 10 := by
  constructor <;> decide
/-- Witness for C6 at a concrete input. -/
theorem c6_shift_zero_identity_witness :
    (0 < grid6.rows ∧ 0 < grid6.cols) ∧
    isOkAnd (shift_2d grid6 (0, 0) 5) (fun g => g.Equiv grid6) :=
  ⟨by decide, c6_shift_zero_identity grid6 5 (by decide) (by decide)⟩

/-- Claim C2 (code evaluated at the failing input): `shift_2d` performs no
range validation — with `shift_row = 6` on the 6-row demo grid and
`stride = 0` it silently returns the all-zero 6×6 grid instead of raising a
`ShiftOutOfRange` error as the claim requires. -/
theorem c2_shift_out_of_range_silent :
    isOkAnd (shift_2d grid6 (6, 0) 0) (fun g => g.Equiv (zeros 6 6)) := by decide

/-- Claim C5 (code evaluated at the failing input): `shift_2d` performs no
stride validation — `stride = -1` is treated exactly like the zero-fill path
(`if stride > 0` fails), so the call silently returns a zero-padded shift
instead of raising an `InvalidStride` error as the claim requires. -/
theorem c5_negative_stride_silent :
    isOkAnd (shift_2d grid22 (1, 0) (-1)) (fun g =>
      g.rows = 2 ∧ g.cols = 2 ∧ g.data 0 0 = 0 ∧ g.data 0 1 = 0 ∧
      g.data 1 0 = 1 ∧ g.data 1 1 = 2) := by decide

/-- Claim C9: on the 6×6 grid of values 1..36 in row-major order,
`shift_2d(grid, (1, 0), stride=1)` yields row 0 equal to the original row 0
(the replicated edge row) and rows 1..5 equal to the original rows 0..4. -/
theorem c9_literal_scenario :
    isOkAnd (shift_2d grid6 (1, 0) 1) (fun g =>
      g.rows = 6 ∧ g.cols = 6 ∧
      (∀ j < 6, g.data 0 j = grid6.data 0 j) ∧
      (∀ i < 5, ∀ j < 6, g.data (i + 1) j = grid6.data i j)) := by decide

/-- Claim C10: for every input grid and every argument combination, whenever
`shift_2d` or `add_border_2d` returns a grid, each of its entries is either
zero or a copy of some entry of the input — the transforms only move and
replicate values. -/
theorem c10_values_conserved (arr : Grid) (shifts : Int × Int) (stride : Int) (b : Nat) :
    okImp (shift_2d arr shifts stride) (fun g => Conserves arr g) ∧
    okImp (add_border_2d arr b stride) (fun g => Conserves arr g) := by
  constructor
  · cases h : shift_2d arr shifts stride with
    | ok g => exact shift_2d_conserves arr shifts stride g h
    | error e => trivial
  · cases h : add_border_2d arr b stride with
    | ok g => exact add_border_2d_conserves arr b stride g h
    | error e => trivial
